import Mathlib

/-!
Shallow embedding of the saa-forta repository (src/comorbidities/comorbidities.py,
src/forta/forta.py) and proofs about the claims of its specification.

Python scalar values (JSON scalars plus lists) are modelled by `Value`; numbers
are modelled as integers.  Raising Python code is modelled with `Except Exc`;
`Exc` distinguishes the exception classes the source code handles
(`ValueError`, `TypeError`), `KeyError` from subscript lookups, and any other
exception class (`other`).  The externally supplied rule tables
(COMORBIDITY_MAPPING.json, FORTA_MAPPING.json, FORTA_database.csv) are
parameters of the embedded functions, matching the spec's view of them as
already-parsed read-only reference data.
-/

deriving instance DecidableEq for Except

namespace SaaForta

/-- A Python scalar value (JSON scalar).  Numbers are modelled as integers. -/
inductive Scalar where
  | none
  | int (n : Int)
  | bool (b : Bool)
  | str (s : String)
deriving DecidableEq

/-- A Python runtime value as it occurs in patient records and rule tables:
JSON scalars plus lists.  In this program lists only ever hold scalars (the
aggregate medication field is a list of substance names), so list elements
are modelled by `Scalar`. -/
inductive Value where
  | none
  | int (n : Int)
  | bool (b : Bool)
  | str (s : String)
  | list (xs : List Scalar)
deriving DecidableEq

/-- Embed a scalar into `Value` (used when iterating a Python list). -/
def Scalar.toValue : Scalar → Value
  | .none => .none
  | .int n => .int n
  | .bool b => .bool b
  | .str s => .str s

/-- The exception classes relevant to the embedded code. -/
inductive Exc where
  | typeError
  | valueError
  | keyError (key : String)
  | other
deriving DecidableEq

/-- Python `==` on the values of `Value` (`bool` compares equal to the
corresponding int, values of unrelated types compare unequal). -/
def pyEq : Value → Value → Bool
  | .none, .none => true
  | .int a, .int b => a == b
  | .bool a, .bool b => a == b
  | .bool a, .int b => (if a then (1 : Int) else 0) == b
  | .int a, .bool b => a == (if b then (1 : Int) else 0)
  | .str a, .str b => a == b
  | .list a, .list b => a == b
  | _, _ => false

/-- Whether a value is a Python list (the only unhashable `Value`). -/
def Value.isList : Value → Bool
  | .list _ => true
  | _ => false

/-- Whether a value is a Python string. -/
def Value.isStr : Value → Bool
  | .str _ => true
  | _ => false

/-- Whether a value is an int or a bool (the types comparable with an int
by `<` / `>=` without raising). -/
def Value.isNumish : Value → Bool
  | .int _ => true
  | .bool _ => true
  | _ => false

/-- Python truthiness of a value. -/
def pyTruthy : Value → Bool
  | .none => false
  | .int n => n != 0
  | .bool b => b
  | .str s => s != ""
  | .list xs => !xs.isEmpty

/-- Python `str()` of a value (only reached for hashable values in the
embedded code). -/
def pyStr : Value → String
  | .none => "None"
  | .int n => toString n
  | .bool b => if b then "True" else "False"
  | .str s => s
  | .list _ => "[...]"

/-- Python dict lookup returning an `Option` (`dict.get` semantics). -/
def dictGet {α : Type} : List (String × α) → String → Option α
  | [], _ => Option.none
  | (k, v) :: rest, key => if k = key then some v else dictGet rest key

/-- Python `val in NULL` with `NULL = {None, 'NaN', '', ' '}`:
set membership hashes `val` first, so an unhashable value (a list) raises
`TypeError`. -/
def inNULL : Value → Except Exc Bool
  | .list _ => .error .typeError
  | .none => .ok true
  | .str s => .ok (s == "NaN" || s == "" || s == " ")
  | _ => .ok false

/-- Lower-case one ASCII character (Python `str.lower` on the ASCII range;
the strings compared in this code are ASCII). -/
def charLower (c : Char) : Char :=
  if 65 ≤ c.toNat ∧ c.toNat ≤ 90 then Char.ofNat (c.toNat + 32) else c

/-- Python `str.lower`. -/
def pyLower (s : String) : String := String.mk (s.data.map charLower)

/-- The ASCII whitespace characters stripped by Python `str.strip`. -/
def pySpace (c : Char) : Bool :=
  c == ' ' || c == '\t' || c == '\n' || c == '\r' || c == '\x0b' || c == '\x0c'

/-- Python `str.strip()`: remove leading and trailing whitespace. -/
def pyStrip (s : String) : String :=
  String.mk (((s.data.dropWhile pySpace).reverse.dropWhile pySpace).reverse)

/-- Accumulate decimal digits; `Option.none` on a non-digit character. -/
def parseNatDigits (acc : Nat) : List Char → Option Nat
  | [] => some acc
  | c :: rest =>
    if 48 ≤ c.toNat ∧ c.toNat ≤ 57 then
      parseNatDigits (acc * 10 + (c.toNat - 48)) rest
    else Option.none

/-- Python `int(str)` after stripping: an optional sign followed by at least
one decimal digit (digit-group underscores are not modelled). -/
def pyParseInt (s : String) : Option Int :=
  match s.data with
  | [] => Option.none
  | '-' :: rest =>
    if rest.isEmpty then Option.none
    else (parseNatDigits 0 rest).map (fun n => -(n : Int))
  | '+' :: rest =>
    if rest.isEmpty then Option.none
    else (parseNatDigits 0 rest).map (fun n => (n : Int))
  | cs => (parseNatDigits 0 cs).map (fun n => (n : Int))

/-- Python `int(...)` applied to a `Value`: ints pass through, bools become
0/1, strings are parsed as optionally signed decimal integers with
surrounding whitespace allowed (`ValueError` on parse failure), `None` and
lists raise `TypeError`. -/
def pyInt : Value → Except Exc Value
  | .int n => .ok (.int n)
  | .bool b => .ok (.int (if b then 1 else 0))
  | .str s =>
    match pyParseInt (pyStrip s) with
    | some n => .ok (.int n)
    | Option.none => .error .valueError
  | .none => .error .typeError
  | .list _ => .error .typeError

/-- Embedding of `safe_get` (src/comorbidities/comorbidities.py, lines 25-46).
`sample.get(key, sentinel)` is modelled by `(dictGet sample key).getD sentinel`;
the `try/except (ValueError, TypeError)` block catches exactly those two
exception classes, any other exception raised by `cast` propagates. -/
def safe_get (sample : List (String × Value)) (key : String)
    (sentinel : Value := .none) (cast : Value → Except Exc Value := pyInt) :
    Except Exc Value :=
  match inNULL ((dictGet sample key).getD sentinel) with
  | .error e => .error e
  | .ok true => .ok sentinel
  | .ok false =>
    if pyLower (pyStrip (pyStr ((dictGet sample key).getD sentinel))) = "true" then
      .ok (.bool true)
    else if pyLower (pyStrip (pyStr ((dictGet sample key).getD sentinel))) = "false" then
      .ok (.bool false)
    else
      match cast ((dictGet sample key).getD sentinel) with
      | .ok r => .ok r
      | .error .valueError => .ok sentinel
      | .error .typeError => .ok sentinel
      | .error (.keyError k) => .error (.keyError k)
      | .error .other => .error .other

/-- A condition set of the comorbidity rule table: a mapping from field name
to the list of accepted values (dict iteration in insertion order). -/
abbrev CondSet := List (String × List Value)

/-- A comorbidity rule table: ordered mapping from comorbidity label to the
ordered list of its condition sets. -/
abbrev CoTable := List (String × List CondSet)

/-- One condition set of `get_comorbidities`:
`all(safe_get(sample_data, key) in value for key, value in condition.items())`.
The generator short-circuits: pairs after the first failing pair are not
evaluated (so their `safe_get` cannot raise). -/
def condSatisfied (sample : List (String × Value)) : CondSet → Except Exc Bool
  | [] => .ok true
  | (key, accepted) :: rest =>
    match safe_get sample key with
    | .error e => .error e
    | .ok v =>
      if accepted.any (fun a => pyEq v a) then condSatisfied sample rest
      else .ok false

/-- The inner `for condition in logic` loop of `get_comorbidities`: stops at
the first satisfied condition set (`break`). -/
def firstSatisfied (sample : List (String × Value)) :
    List CondSet → Except Exc Bool
  | [] => .ok false
  | cond :: rest =>
    match condSatisfied sample cond with
    | .error e => .error e
    | .ok true => .ok true
    | .ok false => firstSatisfied sample rest

/-- The guard `diagnosis.startswith("V. a. ") and diagnosis[6:] in
comorbidities` of `get_comorbidities`, modelled with
`String.take`/`String.drop` (character positions, as in Python slicing). -/
def skipSuspected (diagnosis : String) (acc : List String) : Bool :=
  diagnosis.take 6 == "V. a. " && acc.contains (diagnosis.drop 6)

/-- The main loop of `get_comorbidities` (src/comorbidities/comorbidities.py,
lines 49-80), accumulating the result tuple. -/
def get_comorbidities_aux (sample : List (String × Value)) :
    CoTable → List String → Except Exc (List String)
  | [], acc => .ok acc
  | (diagnosis, logic) :: rest, acc =>
    if skipSuspected diagnosis acc then
      get_comorbidities_aux sample rest acc
    else
      match firstSatisfied sample logic with
      | .error e => .error e
      | .ok true => get_comorbidities_aux sample rest (acc ++ [diagnosis])
      | .ok false => get_comorbidities_aux sample rest acc

/-- Embedding of `get_comorbidities` with the comorbidity rule table as an
explicit parameter (the source loads it from COMORBIDITY_MAPPING.json, which
the spec treats as externally supplied reference data). -/
def get_comorbidities (table : CoTable) (sample : List (String × Value)) :
    Except Exc (List String) :=
  get_comorbidities_aux sample table []

/-- Embedding of `multimorbidity_to_dict`
(src/comorbidities/comorbidities.py, lines 83-107): the resulting dict is
modelled as the list of its key/value pairs in insertion order. -/
def multimorbidity_to_dict (comorbidities : List String)
    (max_number : Nat := 20) : List (String × Option String) :=
  (List.range max_number).map fun i =>
    ("multimorbidity_" ++ toString (i + 1),
      if h : i < comorbidities.length then some (comorbidities.get ⟨i, h⟩)
      else Option.none)

/-- Python `v < n` for an int literal `n` (`forta_condition_check`
comparisons): ints and bools compare, every other type raises `TypeError`. -/
def pyLtInt (v : Value) (n : Int) : Except Exc Bool :=
  match v with
  | .int a => .ok (a < n)
  | .bool b => .ok ((if b then (1 : Int) else 0) < n)
  | _ => .error .typeError

/-- Python `v >= n` for an int literal `n`: ints and bools compare, every
other type raises `TypeError`. -/
def pyGeInt (v : Value) (n : Int) : Except Exc Bool :=
  match v with
  | .int a => .ok (n ≤ a)
  | .bool b => .ok (n ≤ (if b then (1 : Int) else 0))
  | _ => .error .typeError

/-- The condition keys named in `forta_condition_check`'s condition map. -/
def knownConditionKeys : List String :=
  ["has_depression", "has_insomnia", "is_woman", "has_renal_failure",
   "has_no_renal_failure", "is_old", "is_not_old", "no_hypertension",
   "has_pneumonia"]

/-- Embedding of `forta_condition_check` (src/forta/forta.py, lines 67-95):
dispatch on the condition key with a fail-open (`True`) default for unknown
keys.  The `s.get(field, default)` lookups are defaulting and cannot raise;
the `<` / `>=` comparisons raise `TypeError` on non-numeric stored values. -/
def forta_condition_check (condition_key : String)
    (sample : List (String × Value)) (comorbidities : List String) :
    Except Exc Bool :=
  if condition_key = "has_depression" then
    .ok (comorbidities.contains "Depression")
  else if condition_key = "has_insomnia" then
    .ok (comorbidities.contains "Schlafstörung")
  else if condition_key = "is_woman" then
    .ok (pyEq ((dictGet sample "sex").getD (.int 1)) (.int 0))
  else if condition_key = "has_renal_failure" then
    pyLtInt ((dictGet sample "lab_preop_egfr").getD (.int 120)) 30
  else if condition_key = "has_no_renal_failure" then
    pyGeInt ((dictGet sample "lab_preop_egfr").getD (.int 120)) 30
  else if condition_key = "is_old" then
    pyGeInt ((dictGet sample "adm_age").getD (.int 70)) 85
  else if condition_key = "is_not_old" then
    pyLtInt ((dictGet sample "adm_age").getD (.int 70)) 85
  else if condition_key = "no_hypertension" then
    .ok (!(comorbidities.contains "Arterielle Hypertonie"))
  else if condition_key = "has_pneumonia" then
    .ok (comorbidities.contains "Pneumonie")
  else
    .ok true

/-- An entry of the FORTA mapping: either a plain indication label or a
conditional entry (mapping from condition key to indication label). -/
inductive FEntry where
  | plain (indication : String)
  | cond (items : List (String × String))
deriving DecidableEq

/-- A FORTA mapping: comorbidity label (confirmed form) to its entries. -/
abbrev FMap := List (String × List FEntry)

/-- `forta_indications.add(x)`: the set is modelled as a duplicate-free list
in insertion order (only membership in it is ever observed). -/
def setAdd (s : List String) (x : String) : List String :=
  if s.contains x then s else s ++ [x]

/-- The `for condition_key, indication in entry.items()` loop of
`get_forta_indications`. -/
def procCondItems (sample : List (String × Value)) (comorbidities : List String)
    (acc : List String) : List (String × String) → Except Exc (List String)
  | [] => .ok acc
  | (key, indication) :: rest =>
    match forta_condition_check key sample comorbidities with
    | .error e => .error e
    | .ok b =>
      procCondItems sample comorbidities
        (if b then setAdd acc indication else acc) rest

/-- The `for entry in forta_mapping[diagnosis]` loop of
`get_forta_indications`. -/
def procFEntries (sample : List (String × Value)) (comorbidities : List String)
    (acc : List String) : List FEntry → Except Exc (List String)
  | [] => .ok acc
  | .plain indication :: rest =>
    procFEntries sample comorbidities (setAdd acc indication) rest
  | .cond items :: rest =>
    match procCondItems sample comorbidities acc items with
    | .error e => .error e
    | .ok acc2 => procFEntries sample comorbidities acc2 rest

/-- Normalize a diagnosis name by removing the "V. a. " prefix if present
(src/forta/forta.py, lines 117-119). -/
def stripVa (diagnosis : String) : String :=
  if diagnosis.take 6 == "V. a. " then diagnosis.drop 6 else diagnosis

/-- The outer `for diagnosis in comorbidities` loop of
`get_forta_indications`: the "V. a. " prefix is stripped before lookup and
labels absent from the mapping are skipped. -/
def get_forta_indications_aux (fmap : FMap) (sample : List (String × Value))
    (comorbidities : List String) (acc : List String) :
    List String → Except Exc (List String)
  | [] => .ok acc
  | diagnosis0 :: rest =>
    match dictGet fmap (stripVa diagnosis0) with
    | Option.none => get_forta_indications_aux fmap sample comorbidities acc rest
    | some entries =>
      match procFEntries sample comorbidities acc entries with
      | .error e => .error e
      | .ok acc2 => get_forta_indications_aux fmap sample comorbidities acc2 rest

/-- Embedding of `get_forta_indications` (src/forta/forta.py, lines 98-135)
with the FORTA mapping as an explicit parameter. -/
def get_forta_indications (fmap : FMap) (sample : List (String × Value))
    (comorbidities : List String) : Except Exc (List String) :=
  get_forta_indications_aux fmap sample comorbidities [] comorbidities

/-- The loop body of `get_medication` for one index list: the subscript
`sample[key]` raises `KeyError` when the key is absent; a truthy value is
then tested for membership in `NULL` (which hashes it). -/
def get_medication_aux (sample : List (String × Value)) :
    List Nat → Except Exc (List Value)
  | [] => .ok []
  | i :: rest =>
    match dictGet sample ("medication_preop_" ++ toString i) with
    | Option.none => .error (.keyError ("medication_preop_" ++ toString i))
    | some v =>
      if pyTruthy v then
        match inNULL v with
        | .error e => .error e
        | .ok true => get_medication_aux sample rest
        | .ok false =>
          match get_medication_aux sample rest with
          | .error e => .error e
          | .ok tail => .ok (v :: tail)
      else get_medication_aux sample rest

/-- Embedding of `get_medication` (src/forta/forta.py, lines 46-64):
`for i in range(1, 21)` over the positional fields `medication_preop_1..20`. -/
def get_medication (sample : List (String × Value)) : Except Exc (List Value) :=
  get_medication_aux sample (List.range' 1 20)

/-- A row of the FORTA reference database (columns `Wirkstoff`,
`Indikation`, `FORTA`). -/
structure Row where
  Wirkstoff : String
  Indikation : String
  FORTA : String
deriving DecidableEq

/-- `forta_database['Wirkstoff'].isin(medication)` for one row: membership of
the row's substance among the medication values. -/
def isinMed (medication : List Value) (w : String) : Bool :=
  medication.any fun v => pyEq v (.str w)

/-- The sort key of `sort_values(by=['Wirkstoff', 'FORTA'],
ascending=[True, False])`: substance ascending, then rating descending. -/
def rowLe (r1 r2 : Row) : Bool :=
  if r1.Wirkstoff = r2.Wirkstoff then decide (r2.FORTA ≤ r1.FORTA)
  else decide (r1.Wirkstoff ≤ r2.Wirkstoff)

/-- Insert into a sorted list (used to model sorting). -/
def insortBy {α : Type} (le : α → α → Bool) (x : α) : List α → List α
  | [] => [x]
  | y :: ys => if le x y then x :: y :: ys else y :: insortBy le x ys

/-- Insertion sort (models `sort_values` and `sorted`). -/
def sortBy {α : Type} (le : α → α → Bool) : List α → List α
  | [] => []
  | x :: xs => insortBy le x (sortBy le xs)

/-- Embedding of `make_forta_df` (src/forta/forta.py, lines 138-163) with
the reference database as an explicit parameter: filter to rows whose
substance is among the medications and whose indication is among the
resolved indications, then sort by substance ascending / rating
descending. -/
def make_forta_df (forta_database : List Row) (medication : List Value)
    (forta_indications : List String) : List Row :=
  sortBy rowLe
    (forta_database.filter fun row =>
      isinMed medication row.Wirkstoff &&
        forta_indications.contains row.Indikation)

/-- Python iteration over a value (`set(medication)` iterates its argument):
lists yield their elements, strings yield their characters, every other
type raises `TypeError`. -/
def pyIter : Value → Except Exc (List Value)
  | .list xs => .ok (xs.map Scalar.toValue)
  | .str s => .ok (s.toList.map fun c => .str (String.mk [c]))
  | _ => .error .typeError

/-- Add one value to a Python set (modelled as a duplicate-free list,
duplicates detected with Python equality). -/
def pySetAddV (acc : List Value) (v : Value) : List Value :=
  if acc.any (fun w => pyEq w v) then acc else acc ++ [v]

/-- Python `set(...)` of a list of values: hashes each element (raising
`TypeError` on an unhashable list element) and deduplicates. -/
def pySetAux (acc : List Value) : List Value → Except Exc (List Value)
  | [] => .ok acc
  | v :: rest =>
    if v.isList then .error .typeError else pySetAux (pySetAddV acc v) rest

/-- Python set difference `a - b` on the deduplicated element lists. -/
def pySetDiff (a b : List Value) : List Value :=
  a.filter fun v => !(b.any fun w => pyEq w v)

/-- Extract the strings of a list of values; `Option.none` when some element
is not a string (then `sorted`/`', '.join` raises `TypeError`). -/
def getStrs : List Value → Option (List String)
  | [] => some []
  | .str s :: rest => (getStrs rest).map (s :: ·)
  | _ => Option.none

/-- String `≤` as a Bool comparator (Python `sorted` on strings). -/
def strLe (a b : String) : Bool := decide (a ≤ b)

/-- Embedding of `add_remaining_med` (src/forta/forta.py, lines 166-194):
`missing = list(set(medication) - set(forta_exact['Wirkstoff']))`, then
`', '.join(sorted(missing))` (raising `TypeError` unless all missing
entries are strings), and one appended summary row. -/
def add_remaining_med (forta_exact : List Row) (medication : Value) :
    Except Exc (List Row) :=
  match pyIter medication with
  | .error e => .error e
  | .ok medList =>
    match pySetAux [] medList with
    | .error e => .error e
    | .ok medSet =>
      match pySetAux [] (forta_exact.map fun r => .str r.Wirkstoff) with
      | .error e => .error e
      | .ok matchedSet =>
        let missing := pySetDiff medSet matchedSet
        match getStrs missing with
        | Option.none => .error .typeError
        | some strs =>
          let missingStr := String.intercalate ", " (sortBy strLe strs)
          .ok (forta_exact ++
            [{ Wirkstoff := missingStr, Indikation := "Indikation ggf. prüfen",
               FORTA := "-" }])

/-- Embedding of `get_forta_list` (src/forta/forta.py, lines 197-230) with
the three reference tables as explicit parameters.  The aggregate
`sample['medication']` subscript raises `KeyError` when the key is absent. -/
def get_forta_list (ctable : CoTable) (fmap : FMap) (db : List Row)
    (sample : List (String × Value)) : Except Exc (List Row) :=
  match get_comorbidities ctable sample with
  | .error e => .error e
  | .ok comorbidities =>
    match get_forta_indications fmap sample comorbidities with
    | .error e => .error e
    | .ok forta_indications =>
      match get_medication sample with
      | .error e => .error e
      | .ok medication =>
        let forta_exact := make_forta_df db medication forta_indications
        match dictGet sample "medication" with
        | Option.none => .error (.keyError "medication")
        | some medVal => add_remaining_med forta_exact medVal

/-! ### Helper lemmas about the value model and `safe_get` -/

/-- A key is "good" for a sample when its stored value (if any) is hashable,
so that the `val in NULL` membership test cannot raise. -/
def goodKey (sample : List (String × Value)) (k : String) : Prop :=
  ∀ v, dictGet sample k = some v → v.isList = false

/-- The table-order property under which the suspected-diagnosis suppression
is effective: no confirmed counterpart of a suspected key occurs later in
the table's iteration order. -/
def noConfirmedAfterSuspected : CoTable → Bool
  | [] => true
  | (d, _) :: rest =>
    (!(d.take 6 == "V. a. ") || !((rest.map Prod.fst).contains (d.drop 6))) &&
      noConfirmedAfterSuspected rest

/-- Decimal digit list of a natural number, most significant digit first
(the unfolded form of `Nat.toDigitsCore` at base 10). -/
def digitsAux (n : Nat) : List Char :=
  if n < 10 then [Nat.digitChar n]
  else digitsAux (n / 10) ++ [Nat.digitChar (n % 10)]
termination_by n
decreasing_by
  exact Nat.div_lt_self (by omega) (by omega)

/-- Read a decimal digit list back into a number. -/
def parseNum (cs : List Char) : Nat :=
  cs.foldl (fun a c => a * 10 + (c.toNat - 48)) 0

/-- A well-formed record used as the witness input for claim C3: the
aggregate 'medication' field holds an empty list and all twenty positional
fields are present (holding nulls). -/
def sampleC3 : List (String × Value) :=
  ("medication", Value.list []) ::
    (List.range' 1 20).map
      (fun i => ("medication_preop_" ++ toString i, Value.none))

/-- Comorbidity table for the claim C9 instance: one always-present label. -/
def ctableC9 : CoTable := [("D", [[]])]

/-- FORTA mapping for the claim C9 instance: label "D" maps to the plain
indication "I". -/
def fmapC9 : FMap := [("D", [FEntry.plain "I"])]

/-- Reference database for the claim C9 instance: substance "B" is
classified under indication "I" with rating "A". -/
def dbC9 : List Row :=
  [{ Wirkstoff := "B", Indikation := "I", FORTA := "A" }]

/-- Record for the claim C9 instance: substance "A" appears only in the
positional field `medication_preop_1`, substance "B" appears only in the
aggregate 'medication' list. -/
def sampleC9 : List (String × Value) :=
  ("medication", Value.list [Scalar.str "B"]) ::
    ("medication_preop_1", Value.str "A") ::
      (List.range' 2 19).map
        (fun i => ("medication_preop_" ++ toString i, Value.none))

theorem dictGet_mem {α : Type} {l : List (String × α)} {k : String} {v : α}
    (h : dictGet l k = some v) : (k, v) ∈ l := by
  induction l with
  | nil => simp [dictGet] at h
  | cons p rest ih =>
    obtain ⟨k1, v1⟩ := p
    by_cases hk : k1 = k
    · subst hk
      simp [dictGet] at h
      simp [h]
    · simp [dictGet, hk] at h
      exact List.mem_cons_of_mem _ (ih h)

theorem inNULL_ok_of_hashable {v : Value} (h : v.isList = false) :
    ∃ b, inNULL v = .ok b := by
  cases v with
  | list xs => simp [Value.isList] at h
  | none => exact ⟨true, rfl⟩
  | int n => exact ⟨false, rfl⟩
  | bool b => exact ⟨false, rfl⟩
  | str s => exact ⟨_, rfl⟩

theorem pyInt_error_cases (v : Value) (e : Exc) (h : pyInt v = .error e) :
    e = .valueError ∨ e = .typeError := by
  cases v <;> simp [pyInt] at h <;> try simp [h]
  case str s =>
    cases hti : pyParseInt (pyStrip s) <;> simp [hti] at h
    simp [h]

theorem safe_get_ok_of_hashable (sample : List (String × Value)) (key : String)
    (sentinel : Value) (cast : Value → Except Exc Value)
    (hsent : sentinel.isList = false) (hval : goodKey sample key)
    (hcast : ∀ v e, cast v = .error e → e = .valueError ∨ e = .typeError) :
    ∃ r, safe_get sample key sentinel cast = .ok r := by
  have hnl : ((dictGet sample key).getD sentinel).isList = false := by
    cases hd : dictGet sample key with
    | none => simpa using hsent
    | some v => simpa using hval v hd
  obtain ⟨b, hb⟩ := inNULL_ok_of_hashable hnl
  unfold safe_get
  rw [hb]
  cases b with
  | true => exact ⟨sentinel, rfl⟩
  | false =>
    simp only []
    split
    · exact ⟨_, rfl⟩
    · split
      · exact ⟨_, rfl⟩
      · cases hc : cast ((dictGet sample key).getD sentinel) with
        | ok r => exact ⟨r, rfl⟩
        | error e =>
          rcases hcast _ _ hc with he | he <;> subst he <;> exact ⟨sentinel, rfl⟩

theorem safe_get_ok_default (sample : List (String × Value)) (key : String)
    (hval : goodKey sample key) : ∃ r, safe_get sample key = .ok r :=
  safe_get_ok_of_hashable sample key .none pyInt rfl hval pyInt_error_cases

/-! ### Lemmas about the comorbidity resolver -/

theorem condSatisfied_ok_true_iff (sample : List (String × Value))
    (cond : CondSet) :
    condSatisfied sample cond = .ok true ↔
      ∀ p ∈ cond, ∃ v, safe_get sample p.1 = .ok v ∧
        p.2.any (fun a => pyEq v a) = true := by
  induction cond with
  | nil => simp [condSatisfied]
  | cons p rest ih =>
    obtain ⟨key, accepted⟩ := p
    constructor
    · intro h
      cases hsg : safe_get sample key with
      | error e => simp [condSatisfied, hsg] at h
      | ok v =>
        simp only [condSatisfied, hsg] at h
        cases hany : accepted.any (fun a => pyEq v a) with
        | false => simp [hany] at h
        | true =>
          simp only [hany, if_true] at h
          intro q hq
          rcases List.mem_cons.mp hq with hq | hq
          · subst hq
            exact ⟨v, hsg, hany⟩
          · exact (ih.mp h) q hq
    · intro h
      obtain ⟨v, hsg, hany⟩ := h (key, accepted) (List.mem_cons_self _ _)
      simp only [condSatisfied, hsg, hany, if_true]
      exact ih.mpr fun q hq => h q (List.mem_cons_of_mem _ hq)

theorem condSatisfied_ne_true_of_empty_pair (sample : List (String × Value))
    (cond : CondSet) (k : String) (h : (k, ([] : List Value)) ∈ cond) :
    condSatisfied sample cond ≠ .ok true := by
  intro hc
  obtain ⟨v, _, hany⟩ := (condSatisfied_ok_true_iff sample cond).mp hc (k, []) h
  simp at hany

theorem condSatisfied_ok_of_good (sample : List (String × Value))
    (cond : CondSet) (h : ∀ p ∈ cond, goodKey sample p.1) :
    ∃ b, condSatisfied sample cond = .ok b := by
  induction cond with
  | nil => exact ⟨true, rfl⟩
  | cons p rest ih =>
    obtain ⟨key, accepted⟩ := p
    obtain ⟨v, hv⟩ := safe_get_ok_default sample key (h (key, accepted) (List.mem_cons_self _ _))
    cases hany : accepted.any (fun a => pyEq v a) with
    | true =>
      obtain ⟨b, hb⟩ := ih fun q hq => h q (List.mem_cons_of_mem _ hq)
      exact ⟨b, by simp [condSatisfied, hv, hany, hb]⟩
    | false => exact ⟨false, by simp [condSatisfied, hv, hany]⟩

theorem firstSatisfied_ok_of_good (sample : List (String × Value))
    (logic : List CondSet) (h : ∀ c ∈ logic, ∀ p ∈ c, goodKey sample p.1) :
    ∃ b, firstSatisfied sample logic = .ok b := by
  induction logic with
  | nil => exact ⟨false, rfl⟩
  | cons c rest ih =>
    obtain ⟨b, hb⟩ := condSatisfied_ok_of_good sample c (h c (List.mem_cons_self _ _))
    cases b with
    | true => exact ⟨true, by simp [firstSatisfied, hb]⟩
    | false =>
      obtain ⟨b2, hb2⟩ := ih fun c2 hc2 => h c2 (List.mem_cons_of_mem _ hc2)
      exact ⟨b2, by simp [firstSatisfied, hb, hb2]⟩

theorem firstSatisfied_true_of_mem (sample : List (String × Value))
    (logic : List CondSet) (b : Bool) (c : CondSet)
    (hfs : firstSatisfied sample logic = .ok b) (hc : c ∈ logic)
    (hsat : condSatisfied sample c = .ok true) : b = true := by
  induction logic with
  | nil => simp at hc
  | cons c0 rest ih =>
    cases hc0 : condSatisfied sample c0 with
    | error e => simp [firstSatisfied, hc0] at hfs
    | ok b0 =>
      cases b0 with
      | true =>
        simp [firstSatisfied, hc0] at hfs
        exact hfs
      | false =>
        simp only [firstSatisfied, hc0] at hfs
        rcases List.mem_cons.mp hc with hc | hc
        · subst hc
          rw [hc0] at hsat
          simp at hsat
        · exact ih hfs hc

theorem firstSatisfied_exists_of_true (sample : List (String × Value))
    (logic : List CondSet) (hfs : firstSatisfied sample logic = .ok true) :
    ∃ c ∈ logic, condSatisfied sample c = .ok true := by
  induction logic with
  | nil => simp [firstSatisfied] at hfs
  | cons c0 rest ih =>
    cases hc0 : condSatisfied sample c0 with
    | error e => simp [firstSatisfied, hc0] at hfs
    | ok b0 =>
      cases b0 with
      | true => exact ⟨c0, List.mem_cons_self _ _, hc0⟩
      | false =>
        simp only [firstSatisfied, hc0] at hfs
        obtain ⟨c, hc, hsat⟩ := ih hfs
        exact ⟨c, List.mem_cons_of_mem _ hc, hsat⟩

theorem gca_skip (sample : List (String × Value)) (d : String)
    (logic : List CondSet) (rest : CoTable) (acc : List String)
    (h : skipSuspected d acc = true) :
    get_comorbidities_aux sample ((d, logic) :: rest) acc =
      get_comorbidities_aux sample rest acc := by
  simp [get_comorbidities_aux, h]

theorem gca_err (sample : List (String × Value)) (d : String)
    (logic : List CondSet) (rest : CoTable) (acc : List String) (e : Exc)
    (h : skipSuspected d acc = false)
    (hb : firstSatisfied sample logic = .error e) :
    get_comorbidities_aux sample ((d, logic) :: rest) acc = .error e := by
  simp [get_comorbidities_aux, h, hb]

theorem gca_true (sample : List (String × Value)) (d : String)
    (logic : List CondSet) (rest : CoTable) (acc : List String)
    (h : skipSuspected d acc = false)
    (hb : firstSatisfied sample logic = .ok true) :
    get_comorbidities_aux sample ((d, logic) :: rest) acc =
      get_comorbidities_aux sample rest (acc ++ [d]) := by
  simp [get_comorbidities_aux, h, hb]

theorem gca_false (sample : List (String × Value)) (d : String)
    (logic : List CondSet) (rest : CoTable) (acc : List String)
    (h : skipSuspected d acc = false)
    (hb : firstSatisfied sample logic = .ok false) :
    get_comorbidities_aux sample ((d, logic) :: rest) acc =
      get_comorbidities_aux sample rest acc := by
  simp [get_comorbidities_aux, h, hb]

theorem skipSuspected_eq_false_of_take {d : String} (acc : List String)
    (hpre : ¬(d.take 6 = "V. a. ")) : skipSuspected d acc = false := by
  unfold skipSuspected
  cases hq : d.take 6 == "V. a. " with
  | true => exact absurd (by simpa using hq) hpre
  | false => simp

theorem get_comorbidities_aux_ok_of_good (sample : List (String × Value))
    (table : CoTable)
    (h : ∀ e ∈ table, ∀ c ∈ e.2, ∀ p ∈ c, goodKey sample p.1) :
    ∀ acc, ∃ l, get_comorbidities_aux sample table acc = .ok l := by
  induction table with
  | nil => exact fun acc => ⟨acc, rfl⟩
  | cons e rest ih =>
    intro acc
    obtain ⟨d, logic⟩ := e
    have hrest := fun e2 he2 => h e2 (List.mem_cons_of_mem _ he2)
    cases hskip : skipSuspected d acc with
    | true =>
      obtain ⟨l, hl⟩ := ih hrest acc
      exact ⟨l, by rw [gca_skip _ _ _ _ _ hskip, hl]⟩
    | false =>
      obtain ⟨b, hb⟩ :=
        firstSatisfied_ok_of_good sample logic
          (h (d, logic) (List.mem_cons_self _ _))
      cases b with
      | true =>
        obtain ⟨l, hl⟩ := ih hrest (acc ++ [d])
        exact ⟨l, by rw [gca_true _ _ _ _ _ hskip hb, hl]⟩
      | false =>
        obtain ⟨l, hl⟩ := ih hrest acc
        exact ⟨l, by rw [gca_false _ _ _ _ _ hskip hb, hl]⟩

theorem get_comorbidities_aux_structure (sample : List (String × Value)) :
    ∀ (table : CoTable) (acc l : List String),
      get_comorbidities_aux sample table acc = .ok l →
      ∃ t, l = acc ++ t ∧ ∀ d ∈ t, d ∈ table.map Prod.fst := by
  intro table
  induction table with
  | nil =>
    intro acc l h
    simp [get_comorbidities_aux] at h
    exact ⟨[], by simp [h]⟩
  | cons e rest ih =>
    intro acc l h
    obtain ⟨d, logic⟩ := e
    cases hskip : skipSuspected d acc with
    | true =>
      rw [gca_skip _ _ _ _ _ hskip] at h
      obtain ⟨t, ht, hsub⟩ := ih acc l h
      exact ⟨t, ht, fun x hx => List.mem_cons_of_mem _ (hsub x hx)⟩
    | false =>
      cases hb : firstSatisfied sample logic with
      | error e0 => rw [gca_err _ _ _ _ _ _ hskip hb] at h; simp at h
      | ok b =>
        cases b with
        | true =>
          rw [gca_true _ _ _ _ _ hskip hb] at h
          obtain ⟨t, ht, hsub⟩ := ih (acc ++ [d]) l h
          refine ⟨d :: t, by simpa using ht, ?_⟩
          intro x hx
          rcases List.mem_cons.mp hx with hx | hx
          · simp [hx]
          · exact List.mem_cons_of_mem _ (hsub x hx)
        | false =>
          rw [gca_false _ _ _ _ _ hskip hb] at h
          obtain ⟨t, ht, hsub⟩ := ih acc l h
          exact ⟨t, ht, fun x hx => List.mem_cons_of_mem _ (hsub x hx)⟩

theorem get_comorbidities_aux_mem (sample : List (String × Value)) :
    ∀ (table : CoTable) (acc l : List String) (d : String),
      get_comorbidities_aux sample table acc = .ok l → d ∈ l →
      d ∈ acc ∨ ∃ logic, (d, logic) ∈ table ∧
        firstSatisfied sample logic = .ok true := by
  intro table
  induction table with
  | nil =>
    intro acc l d h hd
    simp [get_comorbidities_aux] at h
    subst h
    exact Or.inl hd
  | cons e rest ih =>
    intro acc l d h hd
    obtain ⟨d0, logic0⟩ := e
    cases hskip : skipSuspected d0 acc with
    | true =>
      rw [gca_skip _ _ _ _ _ hskip] at h
      rcases ih acc l d h hd with hm | ⟨logic, hmem, hfs⟩
      · exact Or.inl hm
      · exact Or.inr ⟨logic, List.mem_cons_of_mem _ hmem, hfs⟩
    | false =>
      cases hb : firstSatisfied sample logic0 with
      | error e0 => rw [gca_err _ _ _ _ _ _ hskip hb] at h; simp at h
      | ok b =>
        cases b with
        | true =>
          rw [gca_true _ _ _ _ _ hskip hb] at h
          rcases ih (acc ++ [d0]) l d h hd with hm | ⟨logic, hmem, hfs⟩
          · rcases List.mem_append.mp hm with hm | hm
            · exact Or.inl hm
            · simp at hm
              subst hm
              exact Or.inr ⟨logic0, List.mem_cons_self _ _, hb⟩
          · exact Or.inr ⟨logic, List.mem_cons_of_mem _ hmem, hfs⟩
        | false =>
          rw [gca_false _ _ _ _ _ hskip hb] at h
          rcases ih acc l d h hd with hm | ⟨logic, hmem, hfs⟩
          · exact Or.inl hm
          · exact Or.inr ⟨logic, List.mem_cons_of_mem _ hmem, hfs⟩

theorem get_comorbidities_aux_firstSat (sample : List (String × Value)) :
    ∀ (table : CoTable) (acc l : List String) (d : String) (logic : List CondSet),
      get_comorbidities_aux sample table acc = .ok l →
      (d, logic) ∈ table → ¬(d.take 6 = "V. a. ") →
      ∃ b, firstSatisfied sample logic = .ok b := by
  intro table
  induction table with
  | nil =>
    intro acc l d logic _ hmem _
    simp at hmem
  | cons e rest ih =>
    intro acc l d logic h hmem hpre
    obtain ⟨d0, logic0⟩ := e
    rcases List.mem_cons.mp hmem with heq | hmem2
    · injection heq with hd hl
      subst hd
      subst hl
      have hskip := skipSuspected_eq_false_of_take acc hpre
      cases hb : firstSatisfied sample logic with
      | error e0 => rw [gca_err _ _ _ _ _ _ hskip hb] at h; simp at h
      | ok b => exact ⟨b, rfl⟩
    · cases hskip : skipSuspected d0 acc with
      | true =>
        rw [gca_skip _ _ _ _ _ hskip] at h
        exact ih acc l d logic h hmem2 hpre
      | false =>
        cases hb : firstSatisfied sample logic0 with
        | error e0 => rw [gca_err _ _ _ _ _ _ hskip hb] at h; simp at h
        | ok b =>
          cases b with
          | true =>
            rw [gca_true _ _ _ _ _ hskip hb] at h
            exact ih _ l d logic h hmem2 hpre
          | false =>
            rw [gca_false _ _ _ _ _ hskip hb] at h
            exact ih _ l d logic h hmem2 hpre

theorem get_comorbidities_aux_mem_of_sat (sample : List (String × Value)) :
    ∀ (table : CoTable) (acc l : List String) (d : String) (logic : List CondSet),
      get_comorbidities_aux sample table acc = .ok l →
      (d, logic) ∈ table → ¬(d.take 6 = "V. a. ") →
      firstSatisfied sample logic = .ok true → d ∈ l := by
  intro table
  induction table with
  | nil =>
    intro acc l d logic _ hmem _ _
    simp at hmem
  | cons e rest ih =>
    intro acc l d logic h hmem hpre hfs
    obtain ⟨d0, logic0⟩ := e
    rcases List.mem_cons.mp hmem with heq | hmem2
    · injection heq with hd hl
      subst hd
      subst hl
      have hskip := skipSuspected_eq_false_of_take acc hpre
      rw [gca_true _ _ _ _ _ hskip hfs] at h
      obtain ⟨t, ht, _⟩ := get_comorbidities_aux_structure sample rest (acc ++ [d]) l h
      subst ht
      simp
    · cases hskip : skipSuspected d0 acc with
      | true =>
        rw [gca_skip _ _ _ _ _ hskip] at h
        exact ih acc l d logic h hmem2 hpre hfs
      | false =>
        cases hb : firstSatisfied sample logic0 with
        | error e0 => rw [gca_err _ _ _ _ _ _ hskip hb] at h; simp at h
        | ok b =>
          cases b with
          | true =>
            rw [gca_true _ _ _ _ _ hskip hb] at h
            exact ih _ l d logic h hmem2 hpre hfs
          | false =>
            rw [gca_false _ _ _ _ _ hskip hb] at h
            exact ih _ l d logic h hmem2 hpre hfs

theorem get_comorbidities_aux_nodup (sample : List (String × Value)) :
    ∀ (table : CoTable) (acc l : List String),
      get_comorbidities_aux sample table acc = .ok l →
      acc.Nodup → (table.map Prod.fst).Nodup →
      (∀ d ∈ acc, d ∉ table.map Prod.fst) → l.Nodup := by
  intro table
  induction table with
  | nil =>
    intro acc l h hacc _ _
    simp [get_comorbidities_aux] at h
    subst h
    exact hacc
  | cons e rest ih =>
    intro acc l h hacc hkeys hdisj
    obtain ⟨d0, logic0⟩ := e
    simp only [List.map_cons, List.nodup_cons] at hkeys
    have hdisj2 : ∀ d ∈ acc, d ∉ rest.map Prod.fst := by
      intro d hd
      have := hdisj d hd
      simp only [List.map_cons, List.mem_cons] at this
      exact fun hc => this (Or.inr hc)
    cases hskip : skipSuspected d0 acc with
    | true =>
      rw [gca_skip _ _ _ _ _ hskip] at h
      exact ih acc l h hacc hkeys.2 hdisj2
    | false =>
      cases hb : firstSatisfied sample logic0 with
      | error e0 => rw [gca_err _ _ _ _ _ _ hskip hb] at h; simp at h
      | ok b =>
        cases b with
        | true =>
          rw [gca_true _ _ _ _ _ hskip hb] at h
          refine ih (acc ++ [d0]) l h ?_ hkeys.2 ?_
          · refine List.Nodup.append hacc (by simp) ?_
            intro x hx hx2
            simp at hx2
            subst hx2
            exact hdisj x hx (by simp)
          · intro d hd
            rcases List.mem_append.mp hd with hd | hd
            · exact hdisj2 d hd
            · simp at hd
              subst hd
              exact hkeys.1
        | false =>
          rw [gca_false _ _ _ _ _ hskip hb] at h
          exact ih acc l h hacc hkeys.2 hdisj2

theorem contains_iff_mem {α : Type} [BEq α] [LawfulBEq α] (l : List α)
    (a : α) : l.contains a = true ↔ a ∈ l :=
  List.elem_iff

theorem take6_drop6_ne {s : String} (h : s.take 6 = "V. a. ") :
    s.drop 6 ≠ s := by
  intro heq
  have h1 : s.1.take 6 = "V. a. ".1 := by
    rw [← String.data_take]
    exact congrArg String.data h
  have h2 : s.1.drop 6 = s.1 := by
    rw [← String.data_drop]
    exact congrArg String.data heq
  have hlen : (s.1.take 6).length = 6 := by
    rw [h1]
    decide
  rw [List.length_take] at hlen
  have hge : 6 ≤ s.1.length := by
    rcases Nat.le_total 6 s.1.length with hle | hle
    · exact hle
    · rw [Nat.min_eq_right hle] at hlen
      omega
  have hlend := congrArg List.length h2
  rw [List.length_drop] at hlend
  omega

theorem gca_no_conf (sample : List (String × Value)) :
    ∀ (table : CoTable) (acc l : List String),
      get_comorbidities_aux sample table acc = .ok l →
      noConfirmedAfterSuspected table = true →
      (∀ d ∈ acc, d.take 6 = "V. a. " → d.drop 6 ∉ acc) →
      (∀ d ∈ acc, d.take 6 = "V. a. " → d.drop 6 ∉ table.map Prod.fst) →
      ∀ d ∈ l, d.take 6 = "V. a. " → d.drop 6 ∉ l := by
  intro table
  induction table with
  | nil =>
    intro acc l h _ ha _
    simp [get_comorbidities_aux] at h
    subst h
    exact ha
  | cons e rest ih =>
    intro acc l h hnc ha hf
    obtain ⟨d0, logic0⟩ := e
    rw [noConfirmedAfterSuspected, Bool.and_eq_true, Bool.or_eq_true] at hnc
    obtain ⟨hnc1, hnc2⟩ := hnc
    have hnc1' : d0.take 6 = "V. a. " → d0.drop 6 ∉ rest.map Prod.fst := by
      intro hpre hc
      rcases hnc1 with hh | hh
      · rw [Bool.not_eq_eq_eq_not, Bool.not_true, beq_eq_false_iff_ne] at hh
        exact hh hpre
      · rw [Bool.not_eq_eq_eq_not, Bool.not_true] at hh
        rw [← contains_iff_mem] at hc
        rw [hc] at hh
        cases hh
    have hf2 : ∀ d ∈ acc, d.take 6 = "V. a. " → d.drop 6 ∉ rest.map Prod.fst := by
      intro d hd hpre hc
      exact hf d hd hpre (by simp [hc])
    cases hskip : skipSuspected d0 acc with
    | true =>
      rw [gca_skip _ _ _ _ _ hskip] at h
      exact ih acc l h hnc2 ha hf2
    | false =>
      cases hb : firstSatisfied sample logic0 with
      | error e0 => rw [gca_err _ _ _ _ _ _ hskip hb] at h; simp at h
      | ok b =>
        cases b with
        | true =>
          rw [gca_true _ _ _ _ _ hskip hb] at h
          refine ih (acc ++ [d0]) l h hnc2 ?_ ?_
          · intro d hd hpre hc
            rcases List.mem_append.mp hd with hd | hd
            · rcases List.mem_append.mp hc with hc | hc
              · exact ha d hd hpre hc
              · simp at hc
                exact hf d hd hpre (by simp [hc])
            · simp at hd
              subst hd
              have hnoskip : ¬(d.drop 6 ∈ acc) := by
                intro hmem
                have : skipSuspected d acc = true := by
                  unfold skipSuspected
                  rw [Bool.and_eq_true, beq_iff_eq, contains_iff_mem]
                  exact ⟨hpre, hmem⟩
                rw [this] at hskip
                cases hskip
              rcases List.mem_append.mp hc with hc | hc
              · exact hnoskip hc
              · simp at hc
                exact take6_drop6_ne hpre hc
          · intro d hd hpre
            rcases List.mem_append.mp hd with hd | hd
            · exact hf2 d hd hpre
            · simp at hd
              subst hd
              exact hnc1' hpre
        | false =>
          rw [gca_false _ _ _ _ _ hskip hb] at h
          exact ih acc l h hnc2 ha hf2

theorem gca_mem_of_empty_cond (sample : List (String × Value)) :
    ∀ (table : CoTable) (acc l : List String) (d : String)
      (logic : List CondSet),
      get_comorbidities_aux sample table acc = .ok l →
      (d, logic) ∈ table → ([] : CondSet) ∈ logic →
      d ∈ l ∨ (d.take 6 = "V. a. " ∧ d.drop 6 ∈ l) := by
  intro table
  induction table with
  | nil =>
    intro acc l d logic _ hmem _
    simp at hmem
  | cons e rest ih =>
    intro acc l d logic h hmem hemp
    obtain ⟨d0, logic0⟩ := e
    rcases List.mem_cons.mp hmem with heq | hmem2
    · injection heq with hd hl
      subst hd
      subst hl
      cases hskip : skipSuspected d acc with
      | true =>
        rw [gca_skip _ _ _ _ _ hskip] at h
        unfold skipSuspected at hskip
        rw [Bool.and_eq_true, beq_iff_eq, contains_iff_mem] at hskip
        obtain ⟨t, ht, _⟩ := get_comorbidities_aux_structure sample rest acc l h
        subst ht
        refine Or.inr ⟨hskip.1, ?_⟩
        exact List.mem_append.mpr (Or.inl (by simpa using hskip.2))
      | false =>
        cases hb : firstSatisfied sample logic with
        | error e0 => rw [gca_err _ _ _ _ _ _ hskip hb] at h; simp at h
        | ok b =>
          have hbt : b = true :=
            firstSatisfied_true_of_mem sample logic b [] hb hemp rfl
          subst hbt
          rw [gca_true _ _ _ _ _ hskip hb] at h
          obtain ⟨t, ht, _⟩ := get_comorbidities_aux_structure sample rest (acc ++ [d]) l h
          subst ht
          exact Or.inl (by simp)
    · cases hskip : skipSuspected d0 acc with
      | true =>
        rw [gca_skip _ _ _ _ _ hskip] at h
        exact ih acc l d logic h hmem2 hemp
      | false =>
        cases hb : firstSatisfied sample logic0 with
        | error e0 => rw [gca_err _ _ _ _ _ _ hskip hb] at h; simp at h
        | ok b =>
          cases b with
          | true =>
            rw [gca_true _ _ _ _ _ hskip hb] at h
            exact ih _ l d logic h hmem2 hemp
          | false =>
            rw [gca_false _ _ _ _ _ hskip hb] at h
            exact ih _ l d logic h hmem2 hemp

theorem keys_nodup_unique {α β : Type} :
    ∀ {l : List (α × β)}, (l.map Prod.fst).Nodup →
      ∀ {k : α} {a b : β}, (k, a) ∈ l → (k, b) ∈ l → a = b := by
  intro l
  induction l with
  | nil =>
    intro _ k a b ha _
    simp at ha
  | cons p rest ih =>
    intro hnd k a b ha hb
    obtain ⟨k0, v0⟩ := p
    simp only [List.map_cons, List.nodup_cons] at hnd
    rcases List.mem_cons.mp ha with ha2 | ha2
    · rcases List.mem_cons.mp hb with hb2 | hb2
      · injection ha2 with hx1 hx2
        injection hb2 with hy1 hy2
        rw [hx2, hy2]
      · injection ha2 with hx1 hx2
        subst hx1
        exact absurd (List.mem_map.mpr ⟨(k, b), hb2, rfl⟩) hnd.1
    · rcases List.mem_cons.mp hb with hb2 | hb2
      · injection hb2 with hy1 hy2
        subst hy1
        exact absurd (List.mem_map.mpr ⟨(k, a), ha2, rfl⟩) hnd.1
      · exact ih hnd.2 ha2 hb2

/-! ### Claim C1 -/

/-- Claim C1 counterexample: for the rule table that lists the suspected
label "V. a. X" before its confirmed counterpart "X", both with one
always-satisfied (empty) condition set, `get_comorbidities` returns both
labels — so a suspected label and its confirmed counterpart do co-occur
when the suspected label precedes the confirmed one in table iteration
order, refuting the claim's "regardless of the order" part. -/
theorem claim_C1_counterexample :
    get_comorbidities [("V. a. X", [[]]), ("X", [[]])] [] =
      .ok ["V. a. X", "X"] ∧
    "V. a. X" ∈ (["V. a. X", "X"] : List String) ∧
    "X" ∈ (["V. a. X", "X"] : List String) ∧
    "V. a. X".take 6 = "V. a. " ∧ "V. a. X".drop 6 = "X" :=
  ⟨by decide, by decide, by decide, by decide, by decide⟩

/-- Claim C1 (amended): for every patient record and every comorbidity rule
table in which no confirmed label occurs after its suspected counterpart in
iteration order, the sequence returned by `get_comorbidities` never
contains a suspected ("V. a. "-prefixed) label together with its
prefix-stripped confirmed counterpart.  (The suppression in the code only
fires when the confirmed label was added earlier, so the invariant holds
only for this table order, not for both orders as claimed.) -/
theorem claim_C1_amended (table : CoTable) (sample : List (String × Value))
    (l : List String) (hord : noConfirmedAfterSuspected table = true)
    (hok : get_comorbidities table sample = .ok l) :
    ∀ d ∈ l, d.take 6 = "V. a. " → d.drop 6 ∉ l :=
  gca_no_conf sample table [] l hok hord (by simp) (by simp)

/-- Witness for `claim_C1_amended` at a concrete table (confirmed label
listed before the suspected one) and the empty record. -/
theorem claim_C1_amended_witness :
    noConfirmedAfterSuspected [("X", [[]]), ("V. a. X", [[]])] = true ∧
    get_comorbidities [("X", [[]]), ("V. a. X", [[]])] [] = .ok ["X"] ∧
    ∀ d ∈ (["X"] : List String), d.take 6 = "V. a. " → d.drop 6 ∉ (["X"] : List String) :=
  ⟨by decide, by decide,
    claim_C1_amended [("X", [[]]), ("V. a. X", [[]])] [] ["X"]
      (by decide) (by decide)⟩

/-! ### Claim C10 -/

/-- Claim C10: a condition set that is an empty mapping is satisfied by
every patient record (the conjunction over its zero pairs holds
vacuously), so a label whose condition-set list contains an empty mapping
is appended to the comorbidity sequence for every input record, unless
suppressed by the suspected-diagnosis rule (in which case its confirmed
counterpart is in the sequence). -/
theorem claim_C10 (table : CoTable) (sample : List (String × Value))
    (d : String) (logic : List CondSet)
    (hgood : ∀ e ∈ table, ∀ c ∈ e.2, ∀ p ∈ c, goodKey sample p.1)
    (hmem : (d, logic) ∈ table) (hemp : ([] : CondSet) ∈ logic) :
    condSatisfied sample ([] : CondSet) = .ok true ∧
    ∃ l, get_comorbidities table sample = .ok l ∧
      (d ∈ l ∨ (d.take 6 = "V. a. " ∧ d.drop 6 ∈ l)) := by
  obtain ⟨l, hl⟩ := get_comorbidities_aux_ok_of_good sample table hgood []
  exact ⟨rfl, l, hl, gca_mem_of_empty_cond sample table [] l d logic hl hmem hemp⟩

/-- Witness for `claim_C10` at the concrete table `{"D": [{}]}` and the
empty record. -/
theorem claim_C10_witness :
    condSatisfied [] ([] : CondSet) = .ok true ∧
    ∃ l, get_comorbidities [("D", [[]])] [] = .ok l ∧
      ("D" ∈ l ∨ ("D".take 6 = "V. a. " ∧ "D".drop 6 ∈ l)) :=
  claim_C10 [("D", [[]])] [] "D" [[]]
    (by
      intro e he c hc p hp
      simp at he
      subst he
      simp at hc
      subst hc
      simp at hp)
    (by decide) (by decide)

/-! ### Claim C7 -/

/-- Claim C7: for every record and rule table (with distinct labels, as in a
Python dict), each label's condition sets are evaluated in order; a
condition set is satisfied iff for every (field, accepted-values) pair the
normalized field value is a member of the accepted values (so a pair with
an empty accepted-values list is never satisfied); a non-suspected label is
in the result (exactly once, the result being duplicate-free) iff one of
its condition sets is satisfied; and a label none of whose condition sets
is satisfied is absent from the result. -/
theorem claim_C7 (table : CoTable) (sample : List (String × Value))
    (l : List String) (hnd : (table.map Prod.fst).Nodup)
    (hok : get_comorbidities table sample = .ok l) :
    l.Nodup ∧
    (∀ c : CondSet, condSatisfied sample c = .ok true ↔
      ∀ p ∈ c, ∃ v, safe_get sample p.1 = .ok v ∧
        p.2.any (fun a => pyEq v a) = true) ∧
    (∀ (c : CondSet) (k : String), (k, ([] : List Value)) ∈ c →
      condSatisfied sample c ≠ .ok true) ∧
    (∀ d logic, (d, logic) ∈ table → ¬(d.take 6 = "V. a. ") →
      (d ∈ l ↔ ∃ c ∈ logic, condSatisfied sample c = .ok true)) ∧
    (∀ d logic, (d, logic) ∈ table →
      (∀ c ∈ logic, condSatisfied sample c ≠ .ok true) → d ∉ l) := by
  refine ⟨?_, fun c => condSatisfied_ok_true_iff sample c,
    fun c k hk => condSatisfied_ne_true_of_empty_pair sample c k hk, ?_, ?_⟩
  · exact get_comorbidities_aux_nodup sample table [] l hok (by simp) hnd (by simp)
  · intro d logic hmem hpre
    constructor
    · intro hd
      rcases get_comorbidities_aux_mem sample table [] l d hok hd with hm | ⟨logic2, hmem2, hfs⟩
      · simp at hm
      · have : logic2 = logic := keys_nodup_unique hnd hmem2 hmem
        subst this
        exact firstSatisfied_exists_of_true sample logic2 hfs
    · intro ⟨c, hc, hsat⟩
      obtain ⟨b, hb⟩ :=
        get_comorbidities_aux_firstSat sample table [] l d logic hok hmem hpre
      have hbt : b = true := firstSatisfied_true_of_mem sample logic b c hb hc hsat
      subst hbt
      exact get_comorbidities_aux_mem_of_sat sample table [] l d logic hok hmem hpre hb
  · intro d logic hmem hnone hd
    rcases get_comorbidities_aux_mem sample table [] l d hok hd with hm | ⟨logic2, hmem2, hfs⟩
    · simp at hm
    · have : logic2 = logic := keys_nodup_unique hnd hmem2 hmem
      subst this
      obtain ⟨c, hc, hsat⟩ := firstSatisfied_exists_of_true sample logic2 hfs
      exact hnone c hc hsat

/-- Witness for `claim_C7` at a concrete one-label table and a matching
record. -/
theorem claim_C7_witness :
    ("A" ∈ (["A"] : List String)) ↔
      ∃ c ∈ [[("f", [Value.int 1])]],
        condSatisfied [("f", Value.int 1)] c = .ok true :=
  (claim_C7 [("A", [[("f", [Value.int 1])]])] [("f", Value.int 1)] ["A"]
      (by decide) (by decide)).2.2.2.1 "A" [[("f", [Value.int 1])]]
    (by decide) (by decide)

/-! ### Claim C6 -/

/-- Claim C6: the condition-key predicates default conservatively when their
record field is missing — with the age field absent, `is_old` evaluates
false and `is_not_old` true; with the renal-function field absent,
`has_renal_failure` evaluates false and `has_no_renal_failure` true — and
every condition key outside the fixed named set evaluates to true
(fail-open), for every record and comorbidity list. -/
theorem claim_C6 (sample : List (String × Value)) (comorbidities : List String) :
    ((dictGet sample "adm_age" = Option.none) →
      forta_condition_check "is_old" sample comorbidities = .ok false ∧
      forta_condition_check "is_not_old" sample comorbidities = .ok true) ∧
    ((dictGet sample "lab_preop_egfr" = Option.none) →
      forta_condition_check "has_renal_failure" sample comorbidities = .ok false ∧
      forta_condition_check "has_no_renal_failure" sample comorbidities = .ok true) ∧
    (∀ key, key ∉ knownConditionKeys →
      forta_condition_check key sample comorbidities = .ok true) := by
  refine ⟨?_, ?_, ?_⟩
  · intro h
    constructor
    · show pyGeInt ((dictGet sample "adm_age").getD (.int 70)) 85 = .ok false
      rw [h]
      decide
    · show pyLtInt ((dictGet sample "adm_age").getD (.int 70)) 85 = .ok true
      rw [h]
      decide
  · intro h
    constructor
    · show pyLtInt ((dictGet sample "lab_preop_egfr").getD (.int 120)) 30 = .ok false
      rw [h]
      decide
    · show pyGeInt ((dictGet sample "lab_preop_egfr").getD (.int 120)) 30 = .ok true
      rw [h]
      decide
  · intro key hk
    simp only [knownConditionKeys, List.mem_cons, List.mem_singleton, not_or] at hk
    obtain ⟨h1, h2, h3, h4, h5, h6, h7, h8, h9⟩ := hk
    simp [forta_condition_check, h1, h2, h3, h4, h5, h6, h7, h8, h9]

/-- Witness for `claim_C6` at the empty record and an unknown key. -/
theorem claim_C6_witness :
    (forta_condition_check "is_old" [] [] = .ok false ∧
      forta_condition_check "is_not_old" [] [] = .ok true) ∧
    (forta_condition_check "has_renal_failure" [] [] = .ok false ∧
      forta_condition_check "has_no_renal_failure" [] [] = .ok true) ∧
    forta_condition_check "frobnicates" [] [] = .ok true :=
  ⟨(claim_C6 [] []).1 rfl, (claim_C6 [] []).2.1 rfl,
    (claim_C6 [] []).2.2 "frobnicates" (by decide)⟩

/-! ### Claim C8 -/

theorem toDigitsCore_eq_digitsAux :
    ∀ (fuel n : Nat) (acc : List Char), n < fuel →
      Nat.toDigitsCore 10 fuel n acc = digitsAux n ++ acc := by
  intro fuel
  induction fuel with
  | zero =>
    intro n acc h
    omega
  | succ f ih =>
    intro n acc h
    by_cases h10 : n / 10 = 0
    · have hlt : n < 10 := by
        rcases Nat.lt_or_ge n 10 with hc | hc
        · exact hc
        · exact absurd h10 (by
            have : 1 ≤ n / 10 := Nat.le_div_iff_mul_le (by omega) |>.mpr (by omega)
            omega)
      rw [show Nat.toDigitsCore 10 (f + 1) n acc =
        Nat.digitChar (n % 10) :: acc from by simp [Nat.toDigitsCore, h10]]
      rw [digitsAux, if_pos hlt, Nat.mod_eq_of_lt hlt]
      rfl
    · have hge : 10 ≤ n := by
        rcases Nat.lt_or_ge n 10 with hc | hc
        · exact absurd (Nat.div_eq_of_lt hc) h10
        · exact hc
      have hfuel : n / 10 < f := by
        have hlt := Nat.div_lt_self (show 0 < n by omega) (show 1 < 10 by omega)
        omega
      rw [show Nat.toDigitsCore 10 (f + 1) n acc =
        Nat.toDigitsCore 10 f (n / 10) (Nat.digitChar (n % 10) :: acc) from by
          simp [Nat.toDigitsCore, h10]]
      rw [ih (n / 10) (Nat.digitChar (n % 10) :: acc) hfuel]
      rw [show digitsAux n = digitsAux (n / 10) ++ [Nat.digitChar (n % 10)]
        from by rw [digitsAux, if_neg (by omega)]]
      simp

theorem digitChar_val {d : Nat} (h : d < 10) :
    (Nat.digitChar d).toNat - 48 = d := by
  interval_cases d <;> rfl

theorem parseNum_digitsAux : ∀ n, parseNum (digitsAux n) = n := by
  intro n
  induction n using Nat.strong_induction_on with
  | _ n ih =>
    by_cases h : n < 10
    · rw [digitsAux, if_pos h]
      unfold parseNum
      simp [List.foldl]
      exact digitChar_val h
    · rw [digitsAux, if_neg h]
      unfold parseNum
      rw [List.foldl_append]
      have ih2 := ih (n / 10) (Nat.div_lt_self (by omega) (by omega))
      unfold parseNum at ih2
      rw [ih2]
      simp [List.foldl]
      rw [digitChar_val (Nat.mod_lt _ (by omega))]
      omega

theorem natRepr_injective (a b : Nat) (h : Nat.repr a = Nat.repr b) :
    a = b := by
  have hd : Nat.toDigits 10 a = Nat.toDigits 10 b := by
    have h2 := congrArg String.data h
    simpa [Nat.repr, List.asString] using h2
  rw [Nat.toDigits, Nat.toDigits,
    toDigitsCore_eq_digitsAux (a + 1) a [] (by omega),
    toDigitsCore_eq_digitsAux (b + 1) b [] (by omega)] at hd
  simp at hd
  have h3 := congrArg parseNum hd
  rwa [parseNum_digitsAux, parseNum_digitsAux] at h3

theorem mtd_key_injective (i j : Nat)
    (h : "multimorbidity_" ++ toString (i + 1) =
      "multimorbidity_" ++ toString (j + 1)) : i = j := by
  have hd := congrArg String.data h
  simp only [String.data_append] at hd
  have h2 := List.append_cancel_left hd
  have h3 : toString (i + 1) = toString (j + 1) := by
    apply congrArg String.mk at h2
    simpa using h2
  have h4 := natRepr_injective (i + 1) (j + 1) h3
  omega

theorem mtd_keys_nodup (cs : List String) (m : Nat) :
    ((multimorbidity_to_dict cs m).map Prod.fst).Nodup := by
  have hkeys : (multimorbidity_to_dict cs m).map Prod.fst =
      (List.range m).map (fun i => "multimorbidity_" ++ toString (i + 1)) := by
    simp [multimorbidity_to_dict]
  rw [hkeys]
  refine List.Nodup.map_on ?_ (List.nodup_range m)
  intro i _ j _ h
  exact mtd_key_injective i j h

/-- Claim C8: for every comorbidity sequence and every `max_number`, the
fixed-width encoder returns a mapping with exactly `max_number` entries
whose keys are the pairwise distinct
`multimorbidity_1 .. multimorbidity_max_number` in order,
where slot `i` holds the `(i-1)`-th comorbidity when `i` is at most the
sequence length and `None` otherwise; comorbidities beyond position
`max_number` are dropped (no slot refers to them). -/
theorem claim_C8 (cs : List String) (m : Nat) :
    (multimorbidity_to_dict cs m).length = m ∧
    (multimorbidity_to_dict cs m).map Prod.fst =
      (List.range m).map (fun i => "multimorbidity_" ++ toString (i + 1)) ∧
    ((multimorbidity_to_dict cs m).map Prod.fst).Nodup ∧
    ∀ i, i < m → (multimorbidity_to_dict cs m).get? i =
      some ("multimorbidity_" ++ toString (i + 1),
        if h : i < cs.length then some (cs.get ⟨i, h⟩) else Option.none) := by
  refine ⟨by simp [multimorbidity_to_dict], ?_, mtd_keys_nodup cs m, ?_⟩
  · simp [multimorbidity_to_dict]
  · intro i hi
    simp only [multimorbidity_to_dict, List.get?_eq_getElem?, List.getElem?_map,
      List.getElem?_range hi, Option.map_some]
    rfl

/-- Witness for `claim_C8` at a concrete two-element sequence and three
slots. -/
theorem claim_C8_witness :
    (multimorbidity_to_dict ["a", "b"] 3).length = 3 ∧
    (multimorbidity_to_dict ["a", "b"] 3).get? 2 =
      some ("multimorbidity_3", Option.none) := by
  refine ⟨(claim_C8 ["a", "b"] 3).1, ?_⟩
  have := (claim_C8 ["a", "b"] 3).2.2.2 2 (by decide)
  simpa using this

/-! ### Totality of the condition-key predicates on well-typed records -/

theorem pyLtInt_ok_of_numish {v : Value} (h : v.isNumish = true) (n : Int) :
    ∃ b, pyLtInt v n = .ok b := by
  cases v <;> simp [Value.isNumish] at h <;> exact ⟨_, rfl⟩

theorem pyGeInt_ok_of_numish {v : Value} (h : v.isNumish = true) (n : Int) :
    ∃ b, pyGeInt v n = .ok b := by
  cases v <;> simp [Value.isNumish] at h <;> exact ⟨_, rfl⟩

theorem getD_numish (sample : List (String × Value)) (field : String) (d : Int)
    (h : ∀ v, dictGet sample field = some v → v.isNumish = true) :
    ((dictGet sample field).getD (.int d)).isNumish = true := by
  cases hd : dictGet sample field with
  | none => rfl
  | some v => simpa using h v hd

theorem fcc_ok (sample : List (String × Value)) (comorbidities : List String)
    (hage : ∀ v, dictGet sample "adm_age" = some v → v.isNumish = true)
    (hegfr : ∀ v, dictGet sample "lab_preop_egfr" = some v → v.isNumish = true) :
    ∀ key, ∃ b, forta_condition_check key sample comorbidities = .ok b := by
  intro key
  by_cases h1 : key = "has_depression"
  · exact ⟨_, by subst h1; rfl⟩
  by_cases h2 : key = "has_insomnia"
  · exact ⟨_, by subst h2; rfl⟩
  by_cases h3 : key = "is_woman"
  · exact ⟨_, by subst h3; rfl⟩
  by_cases h4 : key = "has_renal_failure"
  · obtain ⟨b, hb⟩ :=
      pyLtInt_ok_of_numish (getD_numish sample "lab_preop_egfr" 120 hegfr) 30
    subst h4
    exact ⟨b, hb⟩
  by_cases h5 : key = "has_no_renal_failure"
  · obtain ⟨b, hb⟩ :=
      pyGeInt_ok_of_numish (getD_numish sample "lab_preop_egfr" 120 hegfr) 30
    subst h5
    exact ⟨b, hb⟩
  by_cases h6 : key = "is_old"
  · obtain ⟨b, hb⟩ :=
      pyGeInt_ok_of_numish (getD_numish sample "adm_age" 70 hage) 85
    subst h6
    exact ⟨b, hb⟩
  by_cases h7 : key = "is_not_old"
  · obtain ⟨b, hb⟩ :=
      pyLtInt_ok_of_numish (getD_numish sample "adm_age" 70 hage) 85
    subst h7
    exact ⟨b, hb⟩
  by_cases h8 : key = "no_hypertension"
  · exact ⟨_, by subst h8; rfl⟩
  by_cases h9 : key = "has_pneumonia"
  · exact ⟨_, by subst h9; rfl⟩
  exact ⟨true, by simp [forta_condition_check, h1, h2, h3, h4, h5, h6, h7, h8, h9]⟩

/-! ### Claim C2 -/

/-- Claim C2 counterexample: `safe_get` propagates a cast exception that is
not a `ValueError`/`TypeError`, `forta_condition_check` raises `TypeError`
when the stored renal-function value is a string, and `safe_get` raises
`TypeError` on an unhashable (list) stored value — so the core operations
do raise on malformed field values / throwing casts, refuting the claim. -/
theorem claim_C2_counterexample :
    safe_get [("k", .int 5)] "k" .none (fun _ => .error .other) =
      .error .other ∧
    forta_condition_check "has_renal_failure"
      [("lab_preop_egfr", .str "NaN")] [] = .error .typeError ∧
    safe_get [("k", .list [])] "k" .none pyInt = .error .typeError :=
  ⟨by decide, by decide, by decide⟩

/-- Claim C2 (amended): `safe_get` returns a value (never raises) whenever
the sentinel and the stored value are hashable and the cast function only
raises `ValueError` or `TypeError`; and `forta_condition_check` never
raises whenever the stored age and renal-function values (if present) are
numeric or boolean.  (Cast exceptions of other classes, unhashable stored
values, and non-numeric age/renal values do propagate exceptions.) -/
theorem claim_C2_amended (sample : List (String × Value)) (key : String)
    (sentinel : Value) (cast : Value → Except Exc Value)
    (comorbidities : List String) (ckey : String)
    (hsent : sentinel.isList = false) (hval : goodKey sample key)
    (hcast : ∀ v e, cast v = .error e → e = .valueError ∨ e = .typeError)
    (hage : ∀ v, dictGet sample "adm_age" = some v → v.isNumish = true)
    (hegfr : ∀ v, dictGet sample "lab_preop_egfr" = some v → v.isNumish = true) :
    (∃ r, safe_get sample key sentinel cast = .ok r) ∧
    (∃ b, forta_condition_check ckey sample comorbidities = .ok b) :=
  ⟨safe_get_ok_of_hashable sample key sentinel cast hsent hval hcast,
    fcc_ok sample comorbidities hage hegfr ckey⟩

/-- Witness for `claim_C2_amended` at a concrete record. -/
theorem claim_C2_amended_witness :
    (∃ r, safe_get [("a", Value.int 3)] "a" .none pyInt = .ok r) ∧
    (∃ b, forta_condition_check "is_old" [("a", Value.int 3)] [] = .ok b) :=
  claim_C2_amended [("a", Value.int 3)] "a" .none pyInt [] "is_old" rfl
    (by
      intro v hv
      rw [show dictGet [("a", Value.int 3)] "a" = some (Value.int 3) from rfl] at hv
      injection hv with hv2
      subst hv2
      rfl)
    pyInt_error_cases
    (by
      intro v hv
      rw [show dictGet [("a", Value.int 3)] "adm_age" = Option.none from rfl] at hv
      cases hv)
    (by
      intro v hv
      rw [show dictGet [("a", Value.int 3)] "lab_preop_egfr" = Option.none from rfl] at hv
      cases hv)

/-! ### Claim C4 -/

/-- Claim C4 (code bug evaluation): when the key is absent and the sentinel
is not itself in the null-value set, `safe_get` does not return the
sentinel: the absent-key default flows through the boolean-override and
cast pipeline, so sentinel `"7"` with the default `int` cast comes back as
`int 7`, and sentinel `"True"` comes back as boolean `True` — contradicting
the function's own docstring ("Returns the sentinel if the key is
missing"). -/
theorem claim_C4_code_eval :
    safe_get [] "k" (.str "7") pyInt = .ok (.int 7) ∧
    safe_get [] "k" (.str "True") pyInt = .ok (.bool true) ∧
    Value.int 7 ≠ Value.str "7" ∧ Value.bool true ≠ Value.str "True" :=
  ⟨by decide, by decide, by decide, by decide⟩

/-! ### Sorting and set lemmas for the reconciliation summary -/

theorem mem_insortBy {α : Type} (le : α → α → Bool) (x v : α) :
    ∀ l : List α, v ∈ insortBy le x l ↔ v = x ∨ v ∈ l := by
  intro l
  induction l with
  | nil => simp [insortBy]
  | cons y ys ih =>
    cases hxy : le x y with
    | true =>
      simp only [insortBy, hxy, if_true]
      simp [List.mem_cons]
    | false =>
      simp only [insortBy, hxy, Bool.false_eq_true, if_false]
      simp only [List.mem_cons, ih]
      tauto

theorem insortBy_perm {α : Type} (le : α → α → Bool) (x : α) :
    ∀ l : List α, (insortBy le x l).Perm (x :: l) := by
  intro l
  induction l with
  | nil => simp [insortBy]
  | cons y ys ih =>
    cases hxy : le x y with
    | true => simp [insortBy, hxy]
    | false =>
      simp only [insortBy, hxy, Bool.false_eq_true, if_false]
      exact (ih.cons y).trans (List.Perm.swap x y ys)

theorem sortBy_perm {α : Type} (le : α → α → Bool) :
    ∀ l : List α, (sortBy le l).Perm l := by
  intro l
  induction l with
  | nil => simp [sortBy]
  | cons x xs ih => exact ((insortBy_perm le x (sortBy le xs)).trans (ih.cons x))

theorem pairwise_insortBy {α : Type} (le : α → α → Bool)
    (htot : ∀ a b, le a b = true ∨ le b a = true)
    (htrans : ∀ a b c, le a b = true → le b c = true → le a c = true)
    (x : α) : ∀ l : List α, l.Pairwise (fun a b => le a b = true) →
      (insortBy le x l).Pairwise (fun a b => le a b = true) := by
  intro l
  induction l with
  | nil =>
    intro _
    simp [insortBy]
  | cons y ys ih =>
    intro h
    rw [List.pairwise_cons] at h
    obtain ⟨hy, hys⟩ := h
    cases hxy : le x y with
    | true =>
      simp only [insortBy, hxy, if_true]
      refine List.Pairwise.cons ?_ (List.Pairwise.cons hy hys)
      intro z hz
      rcases List.mem_cons.mp hz with hz | hz
      · subst hz
        exact hxy
      · exact htrans x y z hxy (hy z hz)
    | false =>
      simp only [insortBy, hxy, Bool.false_eq_true, if_false]
      refine List.Pairwise.cons ?_ (ih hys)
      intro z hz
      rcases (mem_insortBy le x z ys).mp hz with hz | hz
      · rw [hz]
        rcases htot x y with hh | hh
        · rw [hh] at hxy
          cases hxy
        · exact hh
      · exact hy z hz

theorem pairwise_sortBy {α : Type} (le : α → α → Bool)
    (htot : ∀ a b, le a b = true ∨ le b a = true)
    (htrans : ∀ a b c, le a b = true → le b c = true → le a c = true) :
    ∀ l : List α, (sortBy le l).Pairwise (fun a b => le a b = true) := by
  intro l
  induction l with
  | nil => simp [sortBy]
  | cons x xs ih => exact pairwise_insortBy le htot htrans x (sortBy le xs) ih

theorem strLe_total (a b : String) : strLe a b = true ∨ strLe b a = true := by
  rcases le_total a b with h | h
  · exact Or.inl (decide_eq_true h)
  · exact Or.inr (decide_eq_true h)

theorem strLe_trans (a b c : String) (h1 : strLe a b = true)
    (h2 : strLe b c = true) : strLe a c = true :=
  decide_eq_true (le_trans (of_decide_eq_true h1) (of_decide_eq_true h2))

theorem isStr_not_isList {v : Value} (h : v.isStr = true) :
    v.isList = false := by
  cases v
  case str s => rfl
  all_goals simp [Value.isStr] at h

theorem pyEq_str_iff {v w : Value} (hv : v.isStr = true) (hw : w.isStr = true) :
    pyEq v w = true ↔ v = w := by
  cases v <;> simp [Value.isStr] at hv
  cases w <;> simp [Value.isStr] at hw
  simp [pyEq]

theorem any_pyEq_iff_mem {r : List Value} {v : Value}
    (hr : ∀ w ∈ r, w.isStr = true) (hv : v.isStr = true) :
    r.any (fun w => pyEq w v) = true ↔ v ∈ r := by
  induction r with
  | nil => simp
  | cons w ws ih =>
    have hw : w.isStr = true := hr w (List.mem_cons_self _ _)
    simp only [List.any_cons, Bool.or_eq_true, List.mem_cons]
    rw [ih fun z hz => hr z (List.mem_cons_of_mem _ hz)]
    rw [pyEq_str_iff hw hv]
    constructor
    · rintro (h | h)
      · exact Or.inl h.symm
      · exact Or.inr h
    · rintro (h | h)
      · exact Or.inl h.symm
      · exact Or.inr h

theorem pySetAddV_cases (acc : List Value) (x : Value)
    (hacc : ∀ v ∈ acc, v.isStr = true) (hx : x.isStr = true) :
    (x ∈ acc ∧ pySetAddV acc x = acc) ∨
    (x ∉ acc ∧ pySetAddV acc x = acc ++ [x]) := by
  unfold pySetAddV
  cases hmem : acc.any (fun w => pyEq w x) with
  | true =>
    exact Or.inl ⟨(any_pyEq_iff_mem hacc hx).mp hmem, by simp⟩
  | false =>
    refine Or.inr ⟨?_, by simp⟩
    intro hc
    rw [(any_pyEq_iff_mem hacc hx).mpr hc] at hmem
    cases hmem

theorem pySetAux_str_spec :
    ∀ (l acc : List Value), (∀ v ∈ acc, v.isStr = true) →
      (∀ v ∈ l, v.isStr = true) → acc.Nodup →
      ∃ r, pySetAux acc l = .ok r ∧ (∀ v ∈ r, v.isStr = true) ∧ r.Nodup ∧
        (∀ v, v ∈ r ↔ v ∈ acc ∨ v ∈ l) := by
  intro l
  induction l with
  | nil =>
    intro acc hacc _ hnd
    exact ⟨acc, rfl, hacc, hnd, by simp⟩
  | cons x rest ih =>
    intro acc hacc hl hnd
    have hx : x.isStr = true := hl x (List.mem_cons_self _ _)
    have hrest : ∀ v ∈ rest, v.isStr = true :=
      fun v hv => hl v (List.mem_cons_of_mem _ hv)
    have hstep : pySetAux acc (x :: rest) = pySetAux (pySetAddV acc x) rest := by
      simp [pySetAux, isStr_not_isList hx]
    rcases pySetAddV_cases acc x hacc hx with ⟨hin, heq⟩ | ⟨hout, heq⟩
    · obtain ⟨r, hr, hrs, hrnd, hrmem⟩ := ih acc hacc hrest hnd
      refine ⟨r, by rw [hstep, heq, hr], hrs, hrnd, ?_⟩
      intro v
      rw [hrmem v]
      constructor
      · rintro (h | h)
        · exact Or.inl h
        · exact Or.inr (List.mem_cons_of_mem _ h)
      · rintro (h | h)
        · exact Or.inl h
        · rcases List.mem_cons.mp h with h | h
          · subst h
            exact Or.inl hin
          · exact Or.inr h
    · have hacc2 : ∀ v ∈ acc ++ [x], v.isStr = true := by
        intro v hv
        rcases List.mem_append.mp hv with hv | hv
        · exact hacc v hv
        · simp at hv
          subst hv
          exact hx
      have hnd2 : (acc ++ [x]).Nodup := by
        refine List.Nodup.append hnd (by simp) ?_
        intro z hz hz2
        simp at hz2
        subst hz2
        exact hout hz
      obtain ⟨r, hr, hrs, hrnd, hrmem⟩ := ih (acc ++ [x]) hacc2 hrest hnd2
      refine ⟨r, by rw [hstep, heq, hr], hrs, hrnd, ?_⟩
      intro v
      rw [hrmem v]
      constructor
      · rintro (h | h)
        · rcases List.mem_append.mp h with h | h
          · exact Or.inl h
          · simp at h
            subst h
            exact Or.inr (List.mem_cons_self _ _)
        · exact Or.inr (List.mem_cons_of_mem _ h)
      · rintro (h | h)
        · exact Or.inl (List.mem_append.mpr (Or.inl h))
        · rcases List.mem_cons.mp h with h | h
          · subst h
            exact Or.inl (List.mem_append.mpr (Or.inr (by simp)))
          · exact Or.inr h

theorem getStrs_spec :
    ∀ l : List Value, (∀ v ∈ l, v.isStr = true) →
      ∃ ss, getStrs l = some ss ∧ l = ss.map Value.str := by
  intro l
  induction l with
  | nil => exact fun _ => ⟨[], rfl, rfl⟩
  | cons x rest ih =>
    intro h
    have hx : x.isStr = true := h x (List.mem_cons_self _ _)
    obtain ⟨ss, hss, hmap⟩ := ih fun v hv => h v (List.mem_cons_of_mem _ hv)
    cases x <;> simp [Value.isStr] at hx
    case str s =>
      exact ⟨s :: ss, by simp [getStrs, hss], by simp [hmap]⟩

theorem add_remaining_med_eq (fx : List Row) (medication : Value)
    (medList medSet matchedSet : List Value) (strs : List String)
    (h1 : pyIter medication = .ok medList)
    (h2 : pySetAux [] medList = .ok medSet)
    (h3 : pySetAux [] (fx.map fun r => .str r.Wirkstoff) = .ok matchedSet)
    (h4 : getStrs (pySetDiff medSet matchedSet) = some strs) :
    add_remaining_med fx medication =
      .ok (fx ++
        [{ Wirkstoff := String.intercalate ", " (sortBy strLe strs),
           Indikation := "Indikation ggf. prüfen", FORTA := "-" }]) := by
  simp [add_remaining_med, h1, h2, h3, h4]

/-! ### Claim C5 -/

/-- Claim C5: for every medication list, indication set, and reference
table, the reconciliation result is the matched rows followed by exactly
one summary row — even when the medication list or the unmatched set is
empty — whose substance field is the sorted, comma-joined set difference of
the medication set minus the matched substances (empty string if none,
duplicates never duplicated), whose indication field is the fixed
placeholder "Indikation ggf. prüfen", and whose rating field is "-". -/
theorem claim_C5 (med inds : List String) (db : List Row) :
    ∃ missing : List String,
      add_remaining_med (make_forta_df db (med.map Value.str) inds)
          (.list (med.map Scalar.str)) =
        .ok (make_forta_df db (med.map Value.str) inds ++
          [{ Wirkstoff := String.intercalate ", " missing,
             Indikation := "Indikation ggf. prüfen", FORTA := "-" }]) ∧
      missing.Nodup ∧ missing.Pairwise (· ≤ ·) ∧
      (∀ s, s ∈ missing ↔ s ∈ med ∧
        s ∉ (make_forta_df db (med.map Value.str) inds).map Row.Wirkstoff) ∧
      ((∀ s ∈ med, s ∈ (make_forta_df db (med.map Value.str) inds).map Row.Wirkstoff) →
        String.intercalate ", " missing = "") := by
  set fx := make_forta_df db (med.map Value.str) inds with hfx
  have h1 : pyIter (.list (med.map Scalar.str)) = .ok (med.map Value.str) := by
    simp [pyIter, List.map_map, Scalar.toValue, Function.comp]
  have hmedstrs : ∀ v ∈ med.map Value.str, v.isStr = true := by
    intro v hv
    obtain ⟨s, _, hs⟩ := List.mem_map.mp hv
    rw [← hs]
    rfl
  have hmtstrs : ∀ v ∈ fx.map (fun r => Value.str r.Wirkstoff), v.isStr = true := by
    intro v hv
    obtain ⟨r, _, hr⟩ := List.mem_map.mp hv
    rw [← hr]
    rfl
  obtain ⟨ms, hms, hmsS, hmsNd, hmsMem⟩ :=
    pySetAux_str_spec (med.map Value.str) [] (by simp) hmedstrs (by simp)
  obtain ⟨mt, hmt, hmtS, _, hmtMem⟩ :=
    pySetAux_str_spec (fx.map fun r => Value.str r.Wirkstoff) [] (by simp)
      hmtstrs (by simp)
  have hdiffstrs : ∀ v ∈ pySetDiff ms mt, v.isStr = true :=
    fun v hv => hmsS v (List.mem_filter.mp hv).1
  obtain ⟨ss, hss, hssmap⟩ := getStrs_spec (pySetDiff ms mt) hdiffstrs
  have hdiffmem : ∀ v, v.isStr = true →
      (v ∈ pySetDiff ms mt ↔ v ∈ ms ∧ v ∉ mt) := by
    intro v hv
    unfold pySetDiff
    rw [List.mem_filter]
    constructor
    · rintro ⟨hin, hp⟩
      refine ⟨hin, fun hc => ?_⟩
      rw [Bool.not_eq_eq_eq_not, Bool.not_true] at hp
      rw [(any_pyEq_iff_mem hmtS hv).mpr hc] at hp
      cases hp
    · rintro ⟨hin, hp⟩
      refine ⟨hin, ?_⟩
      rw [Bool.not_eq_eq_eq_not, Bool.not_true]
      cases hq : mt.any fun w => pyEq w v with
      | false => rfl
      | true => exact absurd ((any_pyEq_iff_mem hmtS hv).mp hq) hp
  have hdiffnd : (pySetDiff ms mt).Nodup := List.Nodup.filter _ hmsNd
  have hssnd : ss.Nodup := by
    have : (ss.map Value.str).Nodup := hssmap ▸ hdiffnd
    exact List.Nodup.of_map _ this
  refine ⟨sortBy strLe ss,
    add_remaining_med_eq fx (.list (med.map Scalar.str)) (med.map Value.str)
      ms mt ss h1 hms hmt hss, ?_, ?_, ?_, ?_⟩
  · exact ((sortBy_perm strLe ss).nodup_iff).mpr hssnd
  · exact (pairwise_sortBy strLe strLe_total strLe_trans ss).imp
      fun h => of_decide_eq_true h
  · intro s
    rw [(sortBy_perm strLe ss).mem_iff]
    have hsv : (Value.str s) ∈ ss.map Value.str ↔ s ∈ ss := by
      constructor
      · intro h
        obtain ⟨t, ht, hts⟩ := List.mem_map.mp h
        injection hts with hts2
        rw [← hts2]
        exact ht
      · exact fun h => List.mem_map.mpr ⟨s, h, rfl⟩
    rw [← hsv, ← hssmap]
    rw [hdiffmem (Value.str s) rfl]
    rw [hmsMem (Value.str s)]
    rw [hmtMem (Value.str s)]
    simp only [List.not_mem_nil, false_or]
    constructor
    · rintro ⟨hin, hout⟩
      obtain ⟨t, ht, hts⟩ := List.mem_map.mp hin
      injection hts with hts2
      refine ⟨hts2 ▸ ht, fun hc => hout ?_⟩
      obtain ⟨r, hr, hrw⟩ := List.mem_map.mp hc
      exact List.mem_map.mpr ⟨r, hr, by rw [hrw]⟩
    · rintro ⟨hin, hout⟩
      refine ⟨List.mem_map.mpr ⟨s, hin, rfl⟩, fun hc => hout ?_⟩
      obtain ⟨r, hr, hrw⟩ := List.mem_map.mp hc
      injection hrw with hrw2
      exact List.mem_map.mpr ⟨r, hr, hrw2⟩
  · intro hall
    have hempty : sortBy strLe ss = [] := by
      rw [List.eq_nil_iff_forall_not_mem]
      intro s hs
      rw [(sortBy_perm strLe ss).mem_iff] at hs
      have hsmem : (Value.str s) ∈ pySetDiff ms mt := by
        rw [hssmap]
        exact List.mem_map.mpr ⟨s, hs, rfl⟩
      rw [hdiffmem (Value.str s) rfl, hmsMem, hmtMem] at hsmem
      simp only [List.not_mem_nil, false_or] at hsmem
      obtain ⟨hin, hout⟩ := hsmem
      obtain ⟨t, ht, hts⟩ := List.mem_map.mp hin
      injection hts with hts2
      subst hts2
      obtain ⟨r, hr, hrw⟩ := List.mem_map.mp (hall t ht)
      exact hout (List.mem_map.mpr ⟨r, hr, by rw [hrw]⟩)
    rw [hempty]
    rfl

/-- Witness for `claim_C5` at a concrete medication list with a duplicate,
an empty indication set, and an empty reference table. -/
theorem claim_C5_witness :
    ∃ missing : List String,
      add_remaining_med (make_forta_df [] (["A", "B", "A"].map Value.str) [])
          (.list (["A", "B", "A"].map Scalar.str)) =
        .ok (make_forta_df [] (["A", "B", "A"].map Value.str) [] ++
          [{ Wirkstoff := String.intercalate ", " missing,
             Indikation := "Indikation ggf. prüfen", FORTA := "-" }]) ∧
      missing.Nodup ∧ missing.Pairwise (· ≤ ·) ∧
      (∀ s, s ∈ missing ↔ s ∈ ["A", "B", "A"] ∧
        s ∉ (make_forta_df [] (["A", "B", "A"].map Value.str) []).map Row.Wirkstoff) ∧
      ((∀ s ∈ ["A", "B", "A"],
          s ∈ (make_forta_df [] (["A", "B", "A"].map Value.str) []).map Row.Wirkstoff) →
        String.intercalate ", " missing = "") :=
  claim_C5 ["A", "B", "A"] [] []

/-! ### Totality of the indication resolver and medication extraction -/

theorem procCondItems_ok (sample : List (String × Value))
    (comorbidities : List String)
    (hage : ∀ v, dictGet sample "adm_age" = some v → v.isNumish = true)
    (hegfr : ∀ v, dictGet sample "lab_preop_egfr" = some v → v.isNumish = true) :
    ∀ (items : List (String × String)) (acc : List String),
      ∃ r, procCondItems sample comorbidities acc items = .ok r := by
  intro items
  induction items with
  | nil => exact fun acc => ⟨acc, rfl⟩
  | cons p rest ih =>
    intro acc
    obtain ⟨key, indication⟩ := p
    obtain ⟨b, hb⟩ := fcc_ok sample comorbidities hage hegfr key
    obtain ⟨r, hr⟩ := ih (if b then setAdd acc indication else acc)
    exact ⟨r, by simp [procCondItems, hb, hr]⟩

theorem procFEntries_ok (sample : List (String × Value))
    (comorbidities : List String)
    (hage : ∀ v, dictGet sample "adm_age" = some v → v.isNumish = true)
    (hegfr : ∀ v, dictGet sample "lab_preop_egfr" = some v → v.isNumish = true) :
    ∀ (entries : List FEntry) (acc : List String),
      ∃ r, procFEntries sample comorbidities acc entries = .ok r := by
  intro entries
  induction entries with
  | nil => exact fun acc => ⟨acc, rfl⟩
  | cons e rest ih =>
    intro acc
    cases e with
    | plain indication =>
      obtain ⟨r, hr⟩ := ih (setAdd acc indication)
      exact ⟨r, by simp [procFEntries, hr]⟩
    | cond items =>
      obtain ⟨acc2, hacc2⟩ :=
        procCondItems_ok sample comorbidities hage hegfr items acc
      obtain ⟨r, hr⟩ := ih acc2
      exact ⟨r, by simp [procFEntries, hacc2, hr]⟩

theorem get_forta_indications_aux_ok (fmap : FMap)
    (sample : List (String × Value)) (comorbidities : List String)
    (hage : ∀ v, dictGet sample "adm_age" = some v → v.isNumish = true)
    (hegfr : ∀ v, dictGet sample "lab_preop_egfr" = some v → v.isNumish = true) :
    ∀ (lst : List String) (acc : List String),
      ∃ r, get_forta_indications_aux fmap sample comorbidities acc lst = .ok r := by
  intro lst
  induction lst with
  | nil => exact fun acc => ⟨acc, rfl⟩
  | cons d rest ih =>
    intro acc
    cases hd : dictGet fmap (stripVa d) with
    | none =>
      obtain ⟨r, hr⟩ := ih acc
      exact ⟨r, by simp [get_forta_indications_aux, hd, hr]⟩
    | some entries =>
      obtain ⟨acc2, hacc2⟩ :=
        procFEntries_ok sample comorbidities hage hegfr entries acc
      obtain ⟨r, hr⟩ := ih acc2
      exact ⟨r, by simp [get_forta_indications_aux, hd, hacc2, hr]⟩

theorem get_forta_indications_ok (fmap : FMap)
    (sample : List (String × Value)) (comorbidities : List String)
    (hage : ∀ v, dictGet sample "adm_age" = some v → v.isNumish = true)
    (hegfr : ∀ v, dictGet sample "lab_preop_egfr" = some v → v.isNumish = true) :
    ∃ r, get_forta_indications fmap sample comorbidities = .ok r :=
  get_forta_indications_aux_ok fmap sample comorbidities hage hegfr
    comorbidities []

theorem get_medication_aux_ok (sample : List (String × Value)) :
    ∀ idxs : List Nat,
      (∀ i ∈ idxs, ∃ v,
        dictGet sample ("medication_preop_" ++ toString i) = some v ∧
          v.isList = false) →
      ∃ l, get_medication_aux sample idxs = .ok l := by
  intro idxs
  induction idxs with
  | nil => exact fun _ => ⟨[], rfl⟩
  | cons i rest ih =>
    intro h
    obtain ⟨v, hv, hvl⟩ := h i (List.mem_cons_self _ _)
    obtain ⟨l, hl⟩ := ih fun j hj => h j (List.mem_cons_of_mem _ hj)
    obtain ⟨b, hb⟩ := inNULL_ok_of_hashable hvl
    cases ht : pyTruthy v with
    | false => exact ⟨l, by simp [get_medication_aux, hv, ht, hl]⟩
    | true =>
      cases b with
      | true => exact ⟨l, by simp [get_medication_aux, hv, ht, hb, hl]⟩
      | false => exact ⟨v :: l, by simp [get_medication_aux, hv, ht, hb, hl]⟩

theorem get_medication_aux_err (sample : List (String × Value)) :
    ∀ idxs : List Nat,
      (∀ i ∈ idxs, ∀ v,
        dictGet sample ("medication_preop_" ++ toString i) = some v →
          v.isList = false) →
      (∃ i ∈ idxs,
        dictGet sample ("medication_preop_" ++ toString i) = Option.none) →
      ∀ l, get_medication_aux sample idxs ≠ .ok l := by
  intro idxs
  induction idxs with
  | nil =>
    rintro _ ⟨i, hi, _⟩
    simp at hi
  | cons i rest ih =>
    rintro hscal ⟨j, hj, hjm⟩ l hok
    cases hv : dictGet sample ("medication_preop_" ++ toString i) with
    | none => simp [get_medication_aux, hv] at hok
    | some v =>
      have hvl : v.isList = false := hscal i (List.mem_cons_self _ _) v hv
      have hjrest : j ∈ rest := by
        rcases List.mem_cons.mp hj with hj | hj
        · subst hj
          rw [hv] at hjm
          cases hjm
        · exact hj
      have hrest : ∀ l2, get_medication_aux sample rest ≠ .ok l2 :=
        ih (fun k hk => hscal k (List.mem_cons_of_mem _ hk)) ⟨j, hjrest, hjm⟩
      obtain ⟨b, hb⟩ := inNULL_ok_of_hashable hvl
      cases ht : pyTruthy v with
      | false =>
        rw [show get_medication_aux sample (i :: rest) =
          get_medication_aux sample rest from by
            simp [get_medication_aux, hv, ht]] at hok
        exact hrest l hok
      | true =>
        cases b with
        | true =>
          rw [show get_medication_aux sample (i :: rest) =
            get_medication_aux sample rest from by
              simp [get_medication_aux, hv, ht, hb]] at hok
          exact hrest l hok
        | false =>
          cases hrec : get_medication_aux sample rest with
          | error e => simp [get_medication_aux, hv, ht, hb, hrec] at hok
          | ok tail => exact hrest tail hrec

theorem add_remaining_med_ok_of_strs (fx : List Row) (ss : List Scalar)
    (hss : ∀ s ∈ ss, ∃ t, s = Scalar.str t) :
    ∃ rows, add_remaining_med fx (.list ss) = .ok rows := by
  have h1 : pyIter (.list ss) = .ok (ss.map Scalar.toValue) := rfl
  have hmedstrs : ∀ v ∈ ss.map Scalar.toValue, v.isStr = true := by
    intro v hv
    obtain ⟨s, hs, hsv⟩ := List.mem_map.mp hv
    obtain ⟨t, ht⟩ := hss s hs
    rw [← hsv, ht]
    rfl
  have hmtstrs : ∀ v ∈ fx.map (fun r => Value.str r.Wirkstoff), v.isStr = true := by
    intro v hv
    obtain ⟨r, _, hr⟩ := List.mem_map.mp hv
    rw [← hr]
    rfl
  obtain ⟨ms, hms, hmsS, hmsNd, _⟩ :=
    pySetAux_str_spec (ss.map Scalar.toValue) [] (by simp) hmedstrs (by simp)
  obtain ⟨mt, hmt, hmtS, _, _⟩ :=
    pySetAux_str_spec (fx.map fun r => Value.str r.Wirkstoff) [] (by simp)
      hmtstrs (by simp)
  have hdiffstrs : ∀ v ∈ pySetDiff ms mt, v.isStr = true :=
    fun v hv => hmsS v (List.mem_filter.mp hv).1
  obtain ⟨strs, hstrs, _⟩ := getStrs_spec (pySetDiff ms mt) hdiffstrs
  exact ⟨_, add_remaining_med_eq fx (.list ss) (ss.map Scalar.toValue)
    ms mt strs h1 hms hmt hstrs⟩

theorem gfl_eq (ctable : CoTable) (fmap : FMap) (db : List Row)
    (sample : List (String × Value)) (co inds : List String)
    (h1 : get_comorbidities ctable sample = .ok co)
    (h2 : get_forta_indications fmap sample co = .ok inds) :
    get_forta_list ctable fmap db sample =
      match get_medication sample with
      | .error e => .error e
      | .ok medication =>
        match dictGet sample "medication" with
        | Option.none => .error (.keyError "medication")
        | some medVal =>
          add_remaining_med (make_forta_df db medication inds) medVal := by
  simp [get_forta_list, h1, h2]

/-! ### Claim C3 -/

/-- Claim C3 counterexample: with the 'medication' key present and
`medication_preop_1` present but `medication_preop_2` absent, the pipeline
propagates a lookup failure (`KeyError 'medication_preop_2'`) — so absence
of a positional field is not silently tolerated, refuting the claim that
only the aggregate 'medication' field's absence propagates. -/
theorem claim_C3_counterexample :
    get_forta_list [] [] []
        [("medication", .list []), ("medication_preop_1", .str "A")] =
      .error (.keyError "medication_preop_2") ∧
    Exc.keyError "medication_preop_2" ≠ Exc.keyError "medication" :=
  ⟨by decide, by decide⟩

/-- Claim C3 (amended): in the reconciliation pipeline, a record-field
lookup failure occurs if and only if the aggregate 'medication' field or
one of the positional fields `medication_preop_1..20` is absent: an empty
medication list is valid while an absent 'medication' key fails, the
positional fields are read with raising subscripts (present-but-null
values are skipped, but the keys themselves must exist), and absence of
every other field is silently tolerated (all other record reads are
defaulting).  Stated for well-typed records: non-'medication' values are
scalars, the 'medication' value (if present) is a list of strings, the
rule table does not condition on 'medication', and the age/renal fields
(if present) are numeric. -/
theorem claim_C3_amended (ctable : CoTable) (fmap : FMap) (db : List Row)
    (sample : List (String × Value))
    (hscal : ∀ p ∈ sample, p.1 ≠ "medication" → (p.2).isList = false)
    (hmedty : ∀ v, dictGet sample "medication" = some v →
      ∃ ss, v = Value.list ss ∧ ∀ s ∈ ss, ∃ t, s = Scalar.str t)
    (hct : ∀ e ∈ ctable, ∀ c ∈ e.2, ∀ p ∈ c, p.1 ≠ "medication")
    (hage : ∀ v, dictGet sample "adm_age" = some v → v.isNumish = true)
    (hegfr : ∀ v, dictGet sample "lab_preop_egfr" = some v → v.isNumish = true) :
    (∃ rows, get_forta_list ctable fmap db sample = .ok rows) ↔
      ((dictGet sample "medication").isSome ∧
        ∀ i ∈ List.range' 1 20,
          (dictGet sample ("medication_preop_" ++ toString i)).isSome) := by
  have hgoodct : ∀ e ∈ ctable, ∀ c ∈ e.2, ∀ p ∈ c, goodKey sample p.1 := by
    intro e he c hc p hp v hv
    exact hscal (p.1, v) (dictGet_mem hv) (hct e he c hc p hp)
  obtain ⟨co, hco⟩ := get_comorbidities_aux_ok_of_good sample ctable hgoodct []
  have hco2 : get_comorbidities ctable sample = .ok co := hco
  obtain ⟨inds, hinds⟩ := get_forta_indications_ok fmap sample co hage hegfr
  have hgl := gfl_eq ctable fmap db sample co inds hco2 hinds
  have hpk : ∀ i ∈ List.range' 1 20,
      ("medication_preop_" ++ toString i) ≠ "medication" := by decide
  have hscal20 : ∀ j ∈ List.range' 1 20, ∀ v,
      dictGet sample ("medication_preop_" ++ toString j) = some v →
        v.isList = false := by
    intro j hj v hv
    exact hscal _ (dictGet_mem hv) (hpk j hj)
  constructor
  · rintro ⟨rows, hrows⟩
    rw [hgl] at hrows
    cases hgm : get_medication sample with
    | error e => rw [hgm] at hrows; cases hrows
    | ok medication =>
      rw [hgm] at hrows
      cases hmv : dictGet sample "medication" with
      | none => rw [hmv] at hrows; cases hrows
      | some mv =>
        refine ⟨by simp [hmv], ?_⟩
        intro i hi
        cases hpi : dictGet sample ("medication_preop_" ++ toString i) with
        | some v => simp
        | none =>
          exact absurd hgm
            (get_medication_aux_err sample (List.range' 1 20) hscal20
              ⟨i, hi, hpi⟩ medication)
  · rintro ⟨hmv, hpre⟩
    obtain ⟨medication, hgm⟩ :=
      get_medication_aux_ok sample (List.range' 1 20)
        (by
          intro i hi
          obtain ⟨v, hv⟩ := Option.isSome_iff_exists.mp (hpre i hi)
          exact ⟨v, hv, hscal20 i hi v hv⟩)
    obtain ⟨mv, hmv2⟩ := Option.isSome_iff_exists.mp hmv
    obtain ⟨ss, hsseq, hssstr⟩ := hmedty mv hmv2
    subst hsseq
    obtain ⟨rows, hrows⟩ :=
      add_remaining_med_ok_of_strs (make_forta_df db medication inds) ss hssstr
    refine ⟨rows, ?_⟩
    rw [hgl]
    have hgm2 : get_medication sample = .ok medication := hgm
    rw [hgm2, hmv2]
    exact hrows

/-- Witness for `claim_C3_amended`: on `sampleC3` the pipeline succeeds. -/
theorem claim_C3_amended_witness :
    ∃ rows, get_forta_list [] [] [] sampleC3 = .ok rows :=
  (claim_C3_amended [] [] [] sampleC3
    (by decide)
    (by
      intro v hv
      rw [show dictGet sampleC3 "medication" = some (Value.list [])
        from by decide] at hv
      injection hv with h2
      exact ⟨[], h2.symm, by intro s hs; simp at hs⟩)
    (by intro e he; simp at he)
    (by
      intro v hv
      rw [show dictGet sampleC3 "adm_age" = Option.none from by decide] at hv
      cases hv)
    (by
      intro v hv
      rw [show dictGet sampleC3 "lab_preop_egfr" = Option.none from by decide] at hv
      cases hv)).mpr
    ⟨by decide, by decide⟩

/-! ### Claim C9 -/

/-- Claim C9: `get_forta_list` filters the matched rows using the
medication list extracted from the positional fields but computes the
unmatched summary from the aggregate 'medication' field.  On this record,
substance "A" (positional only, matching no indication-filtered reference
row) appears neither in the matched rows nor in the unmatched summary
string, and substance "B" (aggregate only) is never matched even though
the reference table classifies it under the active indication "I" — it
lands in the summary row instead. -/
theorem claim_C9 :
    get_forta_list ctableC9 fmapC9 dbC9 sampleC9 =
      .ok [{ Wirkstoff := "B", Indikation := "Indikation ggf. prüfen",
             FORTA := "-" }] ∧
    get_medication sampleC9 = .ok [Value.str "A"] ∧
    dictGet sampleC9 "medication" = some (Value.list [Scalar.str "B"]) ∧
    get_comorbidities ctableC9 sampleC9 = .ok ["D"] ∧
    get_forta_indications fmapC9 sampleC9 ["D"] = .ok ["I"] ∧
    ({ Wirkstoff := "B", Indikation := "I", FORTA := "A" } : Row) ∈ dbC9 ∧
    make_forta_df dbC9 [Value.str "A"] ["I"] = [] ∧
    (∀ r ∈ [({ Wirkstoff := "B", Indikation := "Indikation ggf. prüfen",
               FORTA := "-" } : Row)], ('A' ∈ r.Wirkstoff.data) = False) :=
  ⟨by decide, by decide, by decide, by decide, by decide, by decide,
    by decide, by decide⟩

end SaaForta
